import Mathlib

/-!
# Verification of `BytecodeUtil` (proxy-wasm-cpp-host, `src/common/bytecode_util.cc`)

A shallow embedding of the WASM bytecode scanner:

* buffers are `List Nat`, one entry per byte; every read goes through
  `byteAt`, which reduces modulo 256 (a C `char` holds exactly one byte);
* cursors are indices into the buffer (`pos`), with `endp` the index one
  past the last readable byte (`bytecode.data() + bytecode.size()`);
* the unsigned 32-bit accumulator of `parseVarint` is a `Nat` reduced
  modulo `2 ^ 32` (C++ `uint32_t` wraparound; the `int` shift overflow in
  `(b & 0x7f) << shift` is modelled as the same wraparound);
* a C++ `bool` return plus out-parameters becomes either `Option` (when a
  `false` return makes the out-parameter unobservable to callers) or a
  `Bool ×` product (when the claim is about the out-parameter's contents
  on failure);
* every loop carries a fuel argument so that all definitions are
  structurally recursive and kernel-evaluable; each loop iteration of the
  source consumes at least one byte, so fuel `buf.length + 1` is always
  sufficient.
-/

namespace BytecodeUtil

/-- One byte of the buffer: `buf[i]`, reduced to an actual byte value. -/
def byteAt (buf : List Nat) (i : Nat) : Nat := buf.getD i 0 % 256

/-- The four magic bytes `\x00asm` of a WASM module header. -/
def wasmMagicNumber : List Nat := [0x00, 0x61, 0x73, 0x6d]

/-- `BytecodeUtil::checkWasmHeader`: `bytecode.size() < 8 || !memcmp(bytecode.data(), wasm_magic_number, 4)`.
Note the source returns `true` (header "ok") for buffers shorter than 8 bytes. -/
def checkWasmHeader (buf : List Nat) : Bool :=
  decide (buf.length < 8) || decide ((buf.take 4).map (· % 256) = wasmMagicNumber)

/-- The loop body of `BytecodeUtil::parseVarint`.  `acc` is the current value of
the `uint32_t &ret` out-parameter (the source does `ret += ...`, so the caller's
initial value takes part in the sum), `shift` the current shift amount.
Returns the final `ret` and the new cursor, or `none` when the source returns
`false` (cursor past `endp`, or the `ret != (uint32_t)-1` sentinel fails). -/
def parseVarintAux (buf : List Nat) (endp : Nat) :
    Nat → Nat → Nat → Nat → Option (Nat × Nat)
  | 0, _, _, _ => none
  | fuel + 1, pos, acc, shift =>
    if endp < pos + 1 then none
    else
      let b := byteAt buf pos
      let acc2 := (acc + b % 128 * 2 ^ shift) % 2 ^ 32
      if 128 ≤ b then
        parseVarintAux buf endp fuel (pos + 1) acc2 (shift + 7)
      else if acc2 = 2 ^ 32 - 1 then none
      else some (acc2, pos + 1)

/-- `BytecodeUtil::parseVarint(pos, end, ret)` with `ret` entering as `acc`. -/
def parseVarint (buf : List Nat) (endp pos acc : Nat) : Option (Nat × Nat) :=
  parseVarintAux buf endp (endp - pos + 1) pos acc 0

/-- `proxy_wasm::AbiVersion` (owned by the host; only these values are selected). -/
inductive AbiVersion where
  | ProxyWasm_0_1_0
  | ProxyWasm_0_2_0
  | ProxyWasm_0_2_1
  | Unknown
deriving DecidableEq, Repr

/-- ASCII bytes of a string literal (all names compared here are ASCII). -/
def strBytes (s : String) : List Nat := s.data.map Char.toNat

/-- The inner export loop of `BytecodeUtil::getAbiVersion`: iterates
`export_vector_size` times; parses the export name, the kind byte, compares the
name when the kind is `0x00`, otherwise (or on no match) skips the export index
varint — reusing `export_name_size` as the accumulator, exactly as the source
does at the `// Skip export's index.` call. -/
def scanExports (buf : List Nat) (endp : Nat) : Nat → Nat → Option AbiVersion
  | 0, _ => some .Unknown
  | count + 1, pos =>
    match parseVarint buf endp pos 0 with
    | none => none
    | some (exportNameSize, pos1) =>
      if endp < pos1 + exportNameSize then none
      else
        let nameBegin := pos1
        let pos2 := pos1 + exportNameSize
        if endp < pos2 + 1 then none
        else
          let kind := byteAt buf pos2
          let pos3 := pos2 + 1
          let exportName := ((buf.drop nameBegin).take exportNameSize).map (· % 256)
          if kind = 0 ∧ exportName = strBytes "proxy_abi_version_0_1_0" then
            some .ProxyWasm_0_1_0
          else if kind = 0 ∧ exportName = strBytes "proxy_abi_version_0_2_0" then
            some .ProxyWasm_0_2_0
          else if kind = 0 ∧ exportName = strBytes "proxy_abi_version_0_2_1" then
            some .ProxyWasm_0_2_1
          else
            match parseVarint buf endp pos3 exportNameSize with
            | none => none
            | some (_, pos4) => scanExports buf endp count pos4

/-- The section walk of `BytecodeUtil::getAbiVersion`: skip sections until the
export section (type 7); inside it run `scanExports` and stop (the source
`return true`s after the export loop). -/
def abiSections (buf : List Nat) (endp : Nat) : Nat → Nat → Option AbiVersion
  | 0, _ => none
  | fuel + 1, pos =>
    if ¬ pos < endp then some .Unknown
    else if endp < pos + 1 then none
    else
      let sectionType := byteAt buf pos
      match parseVarint buf endp (pos + 1) 0 with
      | none => none
      | some (sectionLen, pos2) =>
        if endp < pos2 + sectionLen then none
        else if sectionType = 7 then
          match parseVarint buf endp pos2 0 with
          | none => none
          | some (exportVectorSize, pos3) =>
            if endp < pos3 + exportVectorSize then none
            else scanExports buf endp exportVectorSize pos3
        else abiSections buf endp fuel (pos2 + sectionLen)

/-- `BytecodeUtil::getAbiVersion`; `none` is the `false` return,
`some v` the `true` return with `ret = v`. -/
def getAbiVersion (buf : List Nat) : Option AbiVersion :=
  if ¬ checkWasmHeader buf then none
  else abiSections buf buf.length (buf.length + 1) 8

/-- The section walk of `BytecodeUtil::getCustomSection`.  The result is the
content of the `string_view &ret` out-parameter: untouched (empty, as the
caller of record initialises it) after a full walk without a match, or the
section payload past the name on the first match. -/
def customSections (buf : List Nat) (endp : Nat) (name : List Nat) :
    Nat → Nat → Option (List Nat)
  | 0, _ => none
  | fuel + 1, pos =>
    if ¬ pos < endp then some []
    else if endp < pos + 1 then none
    else
      let sectionType := byteAt buf pos
      match parseVarint buf endp (pos + 1) 0 with
      | none => none
      | some (sectionLen, pos2) =>
        if endp < pos2 + sectionLen then none
        else if sectionType = 0 then
          let sectionDataStart := pos2
          match parseVarint buf endp pos2 0 with
          | none => none
          | some (sectionNameLen, pos3) =>
            if endp < pos3 + sectionNameLen then none
            else if sectionNameLen = name.length ∧
                ((buf.drop pos3).take sectionNameLen).map (· % 256) = name then
              let pos4 := pos3 + sectionNameLen
              some (((buf.drop pos4).take (sectionDataStart + sectionLen - pos4)).map (· % 256))
            else customSections buf endp name fuel (sectionDataStart + sectionLen)
        else customSections buf endp name fuel (pos2 + sectionLen)

/-- `BytecodeUtil::getCustomSection(bytecode, name, ret)`; `some l` is the
`true` return with `ret` holding bytes `l`. -/
def getCustomSection (buf : List Nat) (name : List Nat) : Option (List Nat) :=
  if ¬ checkWasmHeader buf then none
  else customSections buf buf.length name (buf.length + 1) 8

/-- The function-name map is `std::unordered_map<uint32_t, std::string>`,
modelled as an association list.  `std::unordered_map::insert` does NOT
overwrite an existing key: it is a no-op when the key is present. -/
def mapInsert (m : List (Nat × List Nat)) (k : Nat) (v : List Nat) :
    List (Nat × List Nat) :=
  if (m.lookup k).isSome then m else m ++ [(k, v)]

/-- The `(function_index, name)` pair loop of `BytecodeUtil::getFunctionNameIndex`
(the `for (uint32_t i = 0; i < namemap_vector_size; i++)` loop).  The first
component is the final cursor on success, `none` on failure; the second is the
map out-parameter, which keeps the insertions made before a failure. -/
def nameMapLoop (buf : List Nat) (endp : Nat) :
    Nat → Nat → List (Nat × List Nat) → Option Nat × List (Nat × List Nat)
  | 0, pos, m => (some pos, m)
  | count + 1, pos, m =>
    match parseVarint buf endp pos 0 with
    | none => (none, m)
    | some (funcIndex, pos1) =>
      match parseVarint buf endp pos1 0 with
      | none => (none, m)
      | some (funcNameSize, pos2) =>
        if endp < pos2 + funcNameSize then (none, m)
        else
          nameMapLoop buf endp count (pos2 + funcNameSize)
            (mapInsert m funcIndex (((buf.drop pos2).take funcNameSize).map (· % 256)))

/-- The subsection walk of `BytecodeUtil::getFunctionNameIndex` over the name
section's bytes: skip subsections other than id 1; inside id 1 decode the pair
vector and then require the cursor to sit exactly at the subsection's declared
end (`start + subsection_size != pos` fails). -/
def nameSubsections (buf : List Nat) (endp : Nat) :
    Nat → Nat → List (Nat × List Nat) → Bool × List (Nat × List Nat)
  | 0, _, m => (false, m)
  | fuel + 1, pos, m =>
    if ¬ pos < endp then (true, m)
    else
      let subsectionId := byteAt buf pos
      match parseVarint buf endp (pos + 1) 0 with
      | none => (false, m)
      | some (subsectionSize, pos2) =>
        if endp < pos2 + subsectionSize then (false, m)
        else if subsectionId ≠ 1 then
          nameSubsections buf endp fuel (pos2 + subsectionSize) m
        else
          let start := pos2
          match parseVarint buf endp pos2 0 with
          | none => (false, m)
          | some (namemapVectorSize, pos3) =>
            if endp < pos3 + namemapVectorSize then (false, m)
            else
              match nameMapLoop buf endp namemapVectorSize pos3 m with
              | (none, m2) => (false, m2)
              | (some posEnd, m2) =>
                if start + subsectionSize ≠ posEnd then (false, m2)
                else nameSubsections buf endp fuel posEnd m2

/-- `BytecodeUtil::getFunctionNameIndex(bytecode, ret)`: fetch the custom
section named `"name"`; an empty (or absent — indistinguishable) name section
yields the untouched map.  The `Bool` is the return value; the map is the
`ret` out-parameter, starting empty as the caller of record passes it. -/
def getFunctionNameIndex (buf : List Nat) : Bool × List (Nat × List Nat) :=
  match getCustomSection buf (strBytes "name") with
  | none => (false, [])
  | some ns =>
    if ns ≠ [] then nameSubsections ns ns.length (ns.length + 1) 0 []
    else (true, [])

/-- `std::string_view::find("precompiled_") != npos`: `sub` occurs contiguously
in `l`. -/
def listContainsSub (l sub : List Nat) : Bool :=
  (List.range (l.length + 1)).any fun i => decide ((l.drop i).take sub.length = sub)

/-- The section walk of `BytecodeUtil::getStrippedSource`.  `r` is the
`std::string &ret` out-parameter: on the first custom section whose name
contains `"precompiled_"` and while `r` is still empty, `r` receives every
byte before that section; afterwards every non-custom section's raw bytes are
appended; custom sections are never appended.  A `false` return keeps the
bytes already written to `r`. -/
def strippedSections (buf : List Nat) (endp : Nat) :
    Nat → Nat → List Nat → Bool × List Nat
  | 0, _, r => (false, r)
  | fuel + 1, pos, r =>
    if ¬ pos < endp then (true, r)
    else if endp < pos + 1 then (false, r)
    else
      let sectionStart := pos
      let sectionType := byteAt buf pos
      match parseVarint buf endp (pos + 1) 0 with
      | none => (false, r)
      | some (sectionLen, pos2) =>
        if endp < pos2 + sectionLen then (false, r)
        else if sectionType = 0 then
          let sectionDataStart := pos2
          match parseVarint buf endp pos2 0 with
          | none => (false, r)
          | some (sectionNameLen, pos3) =>
            if endp < pos3 + sectionNameLen then (false, r)
            else
              let sectionName := ((buf.drop pos3).take sectionNameLen).map (· % 256)
              let r2 := if listContainsSub sectionName (strBytes "precompiled_") then
                  (if r = [] then (buf.take sectionStart).map (· % 256) else r)
                else r
              strippedSections buf endp fuel (sectionDataStart + sectionLen) r2
        else
          let posNext := pos2 + sectionLen
          let r2 := if r ≠ [] then
              r ++ ((buf.drop sectionStart).take (posNext - sectionStart)).map (· % 256)
            else r
          strippedSections buf endp fuel posNext r2

/-- `BytecodeUtil::getStrippedSource(bytecode, ret)`: the `Bool` is the return
value, the list the `ret` out-parameter (possibly partially written on
failure).  After a successful walk an empty `ret` is replaced by a copy of the
whole input. -/
def getStrippedSource (buf : List Nat) : Bool × List Nat :=
  if ¬ checkWasmHeader buf then (false, [])
  else
    match strippedSections buf buf.length (buf.length + 1) 8 [] with
    | (false, r) => (false, r)
    | (true, r) => (true, if r = [] then buf.map (· % 256) else r)

/-! ## Specification-side encoders

Standard unsigned LEB128 and the WASM binary module format, used to
quantify over structurally valid modules.  These are spec-side: the scanner
above never produces bytes, it only consumes them. -/

/-- Standard unsigned LEB128 encoding, fuelled (6 groups cover all `v < 2 ^ 42`,
far beyond the `u32` range used here). -/
def lebEncodeAux : Nat → Nat → List Nat
  | 0, v => [v % 128]
  | fuel + 1, v => if v < 128 then [v] else (v % 128 + 128) :: lebEncodeAux fuel (v / 128)

/-- Standard unsigned LEB128 encoding of `v` (correct for every `v < 2 ^ 42`). -/
def lebEncode (v : Nat) : List Nat := lebEncodeAux 6 v

/-- One entry of an export section: `(name, kind, index)`. -/
structure ExportEntry where
  name : List Nat
  kind : Nat
  index : Nat

/-- A top-level module section: a custom section (type 0), an export section
(type 7), or any other section kind given by its raw type byte and payload. -/
inductive Section where
  | custom (name data : List Nat)
  | exports (es : List ExportEntry)
  | other (ty : Nat) (payload : List Nat)

/-- `(name-length, name, kind, index)` encoding of one export. -/
def encodeExport (e : ExportEntry) : List Nat :=
  lebEncode e.name.length ++ e.name ++ [e.kind] ++ lebEncode e.index

/-- The concatenated encodings of a list of exports. -/
def encodeExports (es : List ExportEntry) : List Nat :=
  (es.map encodeExport).flatten

/-- The type byte of a section. -/
def sectionTypeByte : Section → Nat
  | .custom _ _ => 0
  | .exports _ => 7
  | .other ty _ => ty

/-- The payload bytes of a section (what its length varint counts). -/
def sectionPayload : Section → List Nat
  | .custom name data => lebEncode name.length ++ name ++ data
  | .exports es => lebEncode es.length ++ (es.map encodeExport).flatten
  | .other _ payload => payload

/-- `type byte ++ payload-length varint ++ payload`. -/
def encodeSection (s : Section) : List Nat :=
  sectionTypeByte s :: (lebEncode (sectionPayload s).length ++ sectionPayload s)

/-- The 8-byte header: magic number then version 1. -/
def wasmHeader : List Nat := [0x00, 0x61, 0x73, 0x6d, 0x01, 0x00, 0x00, 0x00]

/-- A whole module: header then the concatenated sections. -/
def encodeModule (secs : List Section) : List Nat :=
  wasmHeader ++ (secs.map encodeSection).flatten

/-- The concatenated encodings of a list of sections. -/
def encodeSections (secs : List Section) : List Nat :=
  (secs.map encodeSection).flatten

/-- One `(function_index, name)` pair of the function-name subsection. -/
def encodePair (p : Nat × List Nat) : List Nat :=
  lebEncode p.1 ++ lebEncode p.2.length ++ p.2

/-- The concatenated encodings of the `(function_index, name)` pairs. -/
def encodePairItems (ps : List (Nat × List Nat)) : List Nat :=
  (ps.map encodePair).flatten

/-- The pair vector of the function-name subsection: count then the pairs. -/
def encodePairs (ps : List (Nat × List Nat)) : List Nat :=
  lebEncode ps.length ++ (ps.map encodePair).flatten

/-! ## Well-formedness

Structural validity bounds for the encoders: every stored byte is a byte,
and every length or index fits the scanner's 32-bit varints without
tripping the `ret != (uint32_t)-1` sentinel.  The `wfExport` clause on
`name.length + index` exists because the source reuses `export_name_size`
as the accumulator when skipping the export index. -/

def wfBytes (l : List Nat) : Bool := l.all (· < 256)

def wfExport (e : ExportEntry) : Bool :=
  wfBytes e.name && decide (e.kind < 256) && decide (e.index < 2 ^ 32) &&
    decide (e.name.length < 2 ^ 32 - 1) &&
    decide ((e.name.length + e.index) % 2 ^ 32 ≠ 2 ^ 32 - 1)

def wfSection : Section → Bool
  | .custom name data => wfBytes name && wfBytes data &&
      decide ((sectionPayload (.custom name data)).length < 2 ^ 32 - 1)
  | .exports es => es.all wfExport &&
      decide ((sectionPayload (.exports es)).length < 2 ^ 32 - 1)
  | .other ty payload => decide (ty < 256) && decide (ty ≠ 0) && decide (ty ≠ 7) &&
      wfBytes payload && decide (payload.length < 2 ^ 32 - 1)

def wfModule (secs : List Section) : Bool := secs.all wfSection

/-- One `(function_index, name)` pair the scanner can decode back. -/
def wfPair (p : Nat × List Nat) : Bool :=
  decide (p.1 < 2 ^ 32 - 1) && wfBytes p.2 && decide (p.2.length < 2 ^ 32 - 1)

/-- Is this section an export section? -/
def isExportSection : Section → Bool
  | .exports _ => true
  | _ => false

/-- Does this export trigger one of the three ABI-name comparisons of
`getAbiVersion` (function kind and a known name)? -/
def abiExportMatch (e : ExportEntry) : Bool :=
  decide (e.kind = 0) &&
    (decide (e.name = strBytes "proxy_abi_version_0_1_0") ||
     decide (e.name = strBytes "proxy_abi_version_0_2_0") ||
     decide (e.name = strBytes "proxy_abi_version_0_2_1"))

/-- Is this a custom section whose name contains `"precompiled_"`? -/
def hasPrecompiledName : Section → Bool
  | .custom nm _ => listContainsSub nm (strBytes "precompiled_")
  | _ => false

/-- Is this a custom section with exactly the name `nm`? -/
def isCustomNamed (nm : List Nat) : Section → Bool
  | .custom n _ => decide (n = nm)
  | _ => false

/-! ## Concrete modules used as counterexamples and failing inputs -/

/-- A module holding one custom section named `"name"` with body `body`
(single-byte varints suffice for the concrete bodies used below). -/
def nameSectionModule (body : List Nat) : List Nat :=
  wasmHeader ++ [0, body.length + 5, 4, 110, 97, 109, 101] ++ body

/-- Name-section body whose subsection 1 declares size 5 but whose single
pair `(0, "a")` ends one byte short of that: the scanner inserts the pair,
then fails the end-of-subsection check. -/
def c2NameBody : List Nat := [1, 5, 1, 0, 1, 97, 0]

/-- Header, a complete custom section named `"precompiled_a"`, then one stray
byte `0x01`: the scanner captures the header into `ret`, then fails parsing
the next section's length. -/
def c2StrippedModule : List Nat :=
  wasmHeader ++ [0, 14, 13] ++ strBytes "precompiled_a" ++ [1]

/-- Name-section body: subsection 1 with the duplicate-index pairs
`(0, "a")` and `(0, "b")`. -/
def c3NameBody : List Nat := [1, 7, 2, 0, 1, 97, 0, 1, 98]

/-- Name-section body: subsection 1 with pairs `(0, "main")` and
`(2, "helper")`. -/
def c9NameBody : List Nat :=
  [1, 15, 2, 0, 4, 109, 97, 105, 110, 2, 6, 104, 101, 108, 112, 101, 114]

/-- Export-section payload with two function exports:
`proxy_abi_version_0_1_0` first, `proxy_abi_version_0_2_1` second. -/
def c6ExportSectionPayload : List Nat :=
  [2] ++ ([23] ++ strBytes "proxy_abi_version_0_1_0" ++ [0, 0])
      ++ ([23] ++ strBytes "proxy_abi_version_0_2_1" ++ [0, 1])

/-- A module whose export section lists `proxy_abi_version_0_1_0` before
`proxy_abi_version_0_2_1`, both as function exports. -/
def c6Module : List Nat :=
  wasmHeader ++ [7, c6ExportSectionPayload.length] ++ c6ExportSectionPayload

/-! ## List and varint lemmas -/

theorem getD_append_len (pre l : List Nat) (i : Nat) :
    (pre ++ l).getD (pre.length + i) 0 = l.getD i 0 := by
  rw [List.getD_append_right pre l 0 _ (Nat.le_add_right _ _), Nat.add_sub_cancel_left]

theorem byteAt_append (pre l : List Nat) (i : Nat) :
    byteAt (pre ++ l) (pre.length + i) = l.getD i 0 % 256 := by
  unfold byteAt
  rw [getD_append_len]

theorem byteAt_append_zero (pre : List Nat) (b : Nat) (l : List Nat) :
    byteAt (pre ++ b :: l) pre.length = b % 256 := by
  simpa using byteAt_append pre (b :: l) 0

theorem drop_append_add (pre l : List Nat) (a : Nat) :
    (pre ++ l).drop (pre.length + a) = l.drop a := by
  rw [← List.drop_drop, List.drop_left]

theorem extract_append (pre l rest : List Nat) :
    ((pre ++ (l ++ rest)).drop pre.length).take l.length = l := by
  rw [List.drop_left, List.take_left]

theorem map_mod_of_wf {l : List Nat} (h : wfBytes l = true) : l.map (· % 256) = l := by
  induction l with
  | nil => rfl
  | cons b t ih =>
    simp only [wfBytes, List.all_cons, Bool.and_eq_true, decide_eq_true_eq] at h
    simp only [List.map_cons, Nat.mod_eq_of_lt h.1, ih h.2]

theorem wfBytes_append {l1 l2 : List Nat} :
    wfBytes (l1 ++ l2) = (wfBytes l1 && wfBytes l2) := by
  simp [wfBytes, List.all_append]

theorem lebEncodeAux_wf (f v : Nat) : wfBytes (lebEncodeAux f v) = true := by
  induction f generalizing v with
  | zero =>
    simp only [lebEncodeAux, wfBytes, List.all_cons, List.all_nil, Bool.and_true,
      decide_eq_true_eq]
    omega
  | succ f ih =>
    simp only [lebEncodeAux]
    split
    · simp only [wfBytes, List.all_cons, List.all_nil, Bool.and_true, decide_eq_true_eq]
      omega
    · simp only [wfBytes, List.all_cons, Bool.and_eq_true, decide_eq_true_eq]
      exact ⟨by omega, ih _⟩

theorem lebEncode_wf (v : Nat) : wfBytes (lebEncode v) = true := lebEncodeAux_wf 6 v

theorem lebEncodeAux_len_pos (f v : Nat) : 1 ≤ (lebEncodeAux f v).length := by
  cases f with
  | zero => simp [lebEncodeAux]
  | succ f =>
    simp only [lebEncodeAux]
    split <;> simp

theorem lebEncode_len_pos (v : Nat) : 1 ≤ (lebEncode v).length := lebEncodeAux_len_pos 6 v

theorem parseVarintAux_single (pre rest : List Nat) (v endp acc shift pf : Nat)
    (hv : v < 128) (hend : pre.length + 1 ≤ endp) :
    parseVarintAux (pre ++ v :: rest) endp (pf + 1) pre.length acc shift =
      (if (acc + v * 2 ^ shift) % 2 ^ 32 = 2 ^ 32 - 1 then none
       else some ((acc + v * 2 ^ shift) % 2 ^ 32, pre.length + 1)) := by
  simp only [parseVarintAux, byteAt_append_zero]
  rw [Nat.mod_eq_of_lt (show v < 256 by omega), Nat.mod_eq_of_lt hv,
    if_neg (by omega), if_neg (by omega)]

theorem parseVarintAux_encode (fe : Nat) :
    ∀ (v : Nat), v < 128 ^ (fe + 1) →
    ∀ (pre rest : List Nat) (endp acc shift pf : Nat),
      pre.length + (lebEncodeAux fe v).length ≤ endp →
      (lebEncodeAux fe v).length ≤ pf →
      parseVarintAux (pre ++ (lebEncodeAux fe v ++ rest)) endp pf pre.length acc shift =
        (if (acc + v * 2 ^ shift) % 2 ^ 32 = 2 ^ 32 - 1 then none
         else some ((acc + v * 2 ^ shift) % 2 ^ 32, pre.length + (lebEncodeAux fe v).length)) := by
  induction fe with
  | zero =>
    intro v hv pre rest endp acc shift pf hend hpf
    rw [pow_one] at hv
    simp only [lebEncodeAux, Nat.mod_eq_of_lt hv, List.length_cons, List.length_nil,
      List.singleton_append] at *
    obtain _ | pf := pf
    · omega
    · rw [parseVarintAux_single pre rest v endp acc shift pf hv (by omega)]
  | succ fe ih =>
    intro v hv pre rest endp acc shift pf hend hpf
    by_cases hsmall : v < 128
    · simp only [lebEncodeAux, if_pos hsmall, List.length_cons, List.length_nil,
        List.singleton_append] at *
      obtain _ | pf := pf
      · omega
      · rw [parseVarintAux_single pre rest v endp acc shift pf hsmall (by omega)]
    · simp only [lebEncodeAux, if_neg hsmall, List.length_cons, List.cons_append] at *
      obtain _ | pf := pf
      · omega
      · have hblt : v % 128 + 128 < 256 := by omega
        simp only [parseVarintAux, byteAt_append_zero]
        rw [Nat.mod_eq_of_lt hblt, if_neg (by omega),
          if_pos (show 128 ≤ v % 128 + 128 by omega)]
        have hmod : (v % 128 + 128) % 128 = v % 128 := by omega
        rw [hmod]
        have hv' : v / 128 < 128 ^ (fe + 1) := by
          rw [Nat.div_lt_iff_lt_mul (by norm_num : (0:ℕ) < 128)]
          calc v < 128 ^ (fe + 1 + 1) := hv
            _ = 128 ^ (fe + 1) * 128 := by rw [pow_succ]
        have hre : pre ++ (v % 128 + 128) :: (lebEncodeAux fe (v / 128) ++ rest) =
            (pre ++ [v % 128 + 128]) ++ (lebEncodeAux fe (v / 128) ++ rest) := by
          simp
        have hpos : pre.length + 1 = (pre ++ [v % 128 + 128]).length := by simp
        rw [hre, hpos, ih (v / 128) hv' (pre ++ [v % 128 + 128]) rest endp _ (shift + 7) pf
          (by simp only [List.length_append, List.length_cons, List.length_nil]; omega)
          (by omega)]
        have h27 : (2:ℕ) ^ (shift + 7) = 2 ^ shift * 128 := by rw [pow_add]; norm_num
        have hsplit : v % 128 * 2 ^ shift + v / 128 * 2 ^ (shift + 7) = v * 2 ^ shift := by
          rw [h27]
          conv_rhs => rw [← Nat.mod_add_div v 128]
          ring
        have hkey : ((acc + v % 128 * 2 ^ shift) % 2 ^ 32 + v / 128 * 2 ^ (shift + 7)) % 2 ^ 32
            = (acc + v * 2 ^ shift) % 2 ^ 32 := by
          rw [Nat.mod_add_mod, Nat.add_assoc, hsplit]
        rw [hkey]
        have hlen : (pre ++ [v % 128 + 128]).length + (lebEncodeAux fe (v / 128)).length =
            pre.length + ((lebEncodeAux fe (v / 128)).length + 1) := by
          simp only [List.length_append, List.length_cons, List.length_nil]
          omega
        rw [hlen]

theorem parseVarint_encode (v : Nat) (hv : v < 2 ^ 32) (pre rest : List Nat)
    (endp acc : Nat) (hend : pre.length + (lebEncode v).length ≤ endp) :
    parseVarint (pre ++ (lebEncode v ++ rest)) endp pre.length acc =
      (if (acc + v) % 2 ^ 32 = 2 ^ 32 - 1 then none
       else some ((acc + v) % 2 ^ 32, pre.length + (lebEncode v).length)) := by
  unfold parseVarint
  have h := parseVarintAux_encode 6 v (lt_of_lt_of_le hv (by norm_num)) pre rest endp acc 0
    (endp - pre.length + 1) hend (by unfold lebEncode at hend; omega)
  unfold lebEncode
  simpa using h

theorem parseVarint_encode_acc_at (buf : List Nat) (pos v acc : Nat) (hv : v < 2 ^ 32)
    (pre rest : List Nat) (hbuf : buf = pre ++ (lebEncode v ++ rest))
    (hpos : pos = pre.length) (endp : Nat)
    (hend : pos + (lebEncode v).length ≤ endp)
    (hsent : (acc + v) % 2 ^ 32 ≠ 2 ^ 32 - 1) :
    parseVarint buf endp pos acc = some ((acc + v) % 2 ^ 32, pos + (lebEncode v).length) := by
  subst hbuf hpos
  rw [parseVarint_encode v hv pre rest endp acc hend, if_neg hsent]

theorem parseVarint_encode_at (buf : List Nat) (pos v : Nat) (hv : v < 2 ^ 32 - 1)
    (pre rest : List Nat) (hbuf : buf = pre ++ (lebEncode v ++ rest))
    (hpos : pos = pre.length) (endp : Nat)
    (hend : pos + (lebEncode v).length ≤ endp) :
    parseVarint buf endp pos 0 = some (v, pos + (lebEncode v).length) := by
  have h := parseVarint_encode_acc_at buf pos v 0 (by omega) pre rest hbuf hpos endp hend
    (by rw [Nat.zero_add, Nat.mod_eq_of_lt (by omega)]; omega)
  rwa [Nat.zero_add, Nat.mod_eq_of_lt (by omega)] at h

theorem parseVarintAux_all_continuation (buf : List Nat) (endp : Nat) :
    ∀ (pf pos acc shift : Nat), (∀ i, pos ≤ i → i < endp → 128 ≤ byteAt buf i) →
    parseVarintAux buf endp pf pos acc shift = none := by
  intro pf
  induction pf with
  | zero => intro pos acc shift _; rfl
  | succ pf ih =>
    intro pos acc shift h
    simp only [parseVarintAux]
    by_cases hp : endp < pos + 1
    · rw [if_pos hp]
    · rw [if_neg hp, if_pos (h pos (le_refl _) (by omega))]
      exact ih (pos + 1) _ _ (fun i h1 h2 => h i (by omega) h2)

theorem parseVarint_all_continuation (buf : List Nat) (endp pos acc : Nat)
    (h : ∀ i, pos ≤ i → i < endp → 128 ≤ byteAt buf i) :
    parseVarint buf endp pos acc = none :=
  parseVarintAux_all_continuation buf endp _ pos acc 0 h

/-- Claim C4, amended: the LEB128 round-trip holds for every `u32` value
except `2 ^ 32 - 1`: decoding the standard encoding of any `v < 2 ^ 32 - 1`
(followed by arbitrary bytes) succeeds and yields `v`; and decoding a buffer
whose bytes up to the buffer end all have the continuation bit set fails
(the truncation return of the source).  The excluded value is settled by the
counterexample `FF FF FF FF 0F`. -/
theorem c4_roundtrip_except_max :
    (∀ v : Nat, v < 2 ^ 32 - 1 → ∀ rest : List Nat,
      parseVarint (lebEncode v ++ rest) (lebEncode v ++ rest).length 0 0 =
        some (v, (lebEncode v).length)) ∧
    (∀ (buf : List Nat) (endp pos acc : Nat),
      (∀ i, pos ≤ i → i < endp → 128 ≤ byteAt buf i) →
      parseVarint buf endp pos acc = none) := by
  constructor
  · intro v hv rest
    have h := parseVarint_encode_at (lebEncode v ++ rest) 0 v hv [] rest (by simp) (by simp)
      (lebEncode v ++ rest).length (by simp)
    simpa using h
  · exact parseVarint_all_continuation

/-- Witness for `c4_roundtrip_except_max` at `v = 5`, trailing byte `7`, and
the all-continuation buffer `80 80`. -/
theorem c4_roundtrip_except_max_witness :
    ((5 : Nat) < 2 ^ 32 - 1 ∧
      parseVarint (lebEncode 5 ++ [7]) (lebEncode 5 ++ [7]).length 0 0 =
        some (5, (lebEncode 5).length)) ∧
    ((∀ i, 0 ≤ i → i < 2 → 128 ≤ byteAt [128, 128] i) ∧
      parseVarint [128, 128] 2 0 0 = none) := by
  refine ⟨⟨by norm_num, c4_roundtrip_except_max.1 5 (by norm_num) [7]⟩,
    ⟨?_, c4_roundtrip_except_max.2 [128, 128] 2 0 0 ?_⟩⟩ <;>
    · intro i _ h2
      interval_cases i <;> decide

theorem lookup_append_of_isSome {m m2 : List (Nat × List Nat)} {k : Nat}
    (h : (m.lookup k).isSome) : (m ++ m2).lookup k = m.lookup k := by
  induction m with
  | nil => simp [List.lookup] at h
  | cons a t ih =>
    obtain ⟨k1, v1⟩ := a
    rw [List.cons_append]
    by_cases hk : k == k1
    · simp [List.lookup, hk]
    · simp only [List.lookup, hk] at h ⊢
      exact ih h

theorem mapInsert_lookup_of_isSome {m : List (Nat × List Nat)} {k k2 : Nat}
    {v : List Nat} (h : (m.lookup k).isSome) :
    (mapInsert m k2 v).lookup k = m.lookup k := by
  unfold mapInsert
  split
  · rfl
  · exact lookup_append_of_isSome h

/-- Claim C3, amended: first write wins, not last.  In the
`(function_index, name)` pair loop of `getFunctionNameIndex`, once a function
index is bound in the output mapping, later pairs with the same index never
change its binding (`std::unordered_map::insert` keeps the existing entry). -/
theorem c3_first_write_wins (buf : List Nat) (endp : Nat) :
    ∀ (count pos : Nat) (m : List (Nat × List Nat)) (k : Nat),
    (m.lookup k).isSome →
    ((nameMapLoop buf endp count pos m).2).lookup k = m.lookup k := by
  intro count
  induction count with
  | zero => intro pos m k _; rfl
  | succ n ih =>
    intro pos m k h
    simp only [nameMapLoop]
    split
    · rfl
    · split
      · rfl
      · split
        · rfl
        · rw [ih _ _ k (by rw [mapInsert_lookup_of_isSome h]; exact h),
            mapInsert_lookup_of_isSome h]

/-- Witness for `c3_first_write_wins`: one pair `(0, "b")` processed over a
mapping that already binds index 0 to `"a"` leaves the binding unchanged. -/
theorem c3_first_write_wins_witness :
    (([(0, [97])] : List (Nat × List Nat)).lookup 0).isSome = true ∧
    ((nameMapLoop [0, 1, 98] 3 1 0 [(0, [97])]).2).lookup 0 =
      ([(0, [97])] : List (Nat × List Nat)).lookup 0 :=
  ⟨by decide, c3_first_write_wins [0, 1, 98] 3 1 0 [(0, [97])] 0 (by decide)⟩

/-! ## Claim theorems: concrete evaluations -/

/-- Claim C1: the claim says every buffer shorter than 8 bytes fails the
header check and makes all four scanning operations report `InvalidHeader`.
The code does the opposite: `checkWasmHeader` is
`size < 8 || !memcmp(...)`, so the empty buffer passes the header check and
all four operations succeed on it (ABI version `Unknown`, empty custom
section, empty name map, and a full copy as stripped source).  Only a buffer
of length at least 8 with wrong magic bytes is rejected. -/
theorem c1_short_buffer_not_rejected :
    checkWasmHeader [] = true ∧
    getAbiVersion [] = some AbiVersion.Unknown ∧
    getCustomSection [] (strBytes "name") = some [] ∧
    getFunctionNameIndex [] = (true, []) ∧
    getStrippedSource [] = (true, []) ∧
    checkWasmHeader [1, 2, 3, 4, 5, 6, 7, 8] = false ∧
    getAbiVersion [1, 2, 3, 4, 5, 6, 7, 8] = none := by decide

/-- Claim C2, counterexample: on a name section whose subsection declares
size 5 but whose pair vector consumes 4 bytes, `getFunctionNameIndex`
returns failure with the pair `(0, "a")` already inserted in the output
mapping — failure does not leave the mapping unchanged. -/
theorem c2_counterexample :
    getFunctionNameIndex (nameSectionModule c2NameBody) = (false, [(0, [97])]) :=
  by decide

/-- Claim C2, amended: a failing operation may leave partial output in the
caller-supplied out-parameter, which the caller must discard:
`getFunctionNameIndex` can fail with entries already inserted, and
`getStrippedSource` can fail with bytes (here the 8 header bytes) already
appended to `ret`. -/
theorem c2_amended_partial_output_on_failure :
    (getFunctionNameIndex (nameSectionModule c2NameBody)).1 = false ∧
    (getFunctionNameIndex (nameSectionModule c2NameBody)).2 = [(0, [97])] ∧
    (getStrippedSource c2StrippedModule).1 = false ∧
    (getStrippedSource c2StrippedModule).2 = wasmHeader := by decide

/-- Claim C3, counterexample: a subsection-1 vector with the pairs
`(0, "a")` then `(0, "b")` yields the mapping `{0 ↦ "a"}`: the later pair
did not overwrite the earlier one (`std::unordered_map::insert` keeps the
existing entry), refuting "last write wins". -/
theorem c3_counterexample :
    getFunctionNameIndex (nameSectionModule c3NameBody) = (true, [(0, [97])]) ∧
    ([(0, [97])] : List (Nat × List Nat)).lookup 0 ≠ some [98] := by decide

/-- Claim C4, counterexample: the standard LEB128 encoding of
`2 ^ 32 - 1 = 4294967295` is `FF FF FF FF 0F`, and decoding it fails: the
source's final `return ret != static_cast<uint32_t>(-1)` rejects exactly
this value, so the round-trip does not hold for every `u32`. -/
theorem c4_counterexample :
    lebEncode (2 ^ 32 - 1) = [255, 255, 255, 255, 15] ∧
    parseVarint (lebEncode (2 ^ 32 - 1)) 5 0 0 = none := by decide

/-- Claim C5: the decoder has no shift-width guard: the 6-byte encoding
`80 80 80 80 80 00` (whose last byte is accumulated at shift 35, past the
32-bit value width) is accepted and decodes to 0, refuting "rejects every
encoding that uses more than 5 bytes". -/
theorem c5_six_byte_varint_accepted :
    parseVarint [128, 128, 128, 128, 128, 0] 6 0 0 = some (0, 6) := by decide

/-- Claim C6, counterexample: `c6Module`'s export section contains the
function export `proxy_abi_version_0_2_1` (kind 0), yet `getAbiVersion`
returns `ProxyWasm_0_1_0`, because an earlier function export named
`proxy_abi_version_0_1_0` matches first — the result is not `0_2_1`
"regardless of other exports". -/
theorem c6_counterexample :
    c6Module = encodeModule [Section.exports
      [⟨strBytes "proxy_abi_version_0_1_0", 0, 0⟩,
       ⟨strBytes "proxy_abi_version_0_2_1", 0, 1⟩]] ∧
    getAbiVersion c6Module = some AbiVersion.ProxyWasm_0_1_0 ∧
    some AbiVersion.ProxyWasm_0_1_0 ≠ some AbiVersion.ProxyWasm_0_2_1 := by decide



/-! ## Section-walk lemmas and claim C6 -/

theorem encodeSections_nil : encodeSections [] = [] := rfl

theorem encodeSections_cons (s : Section) (t : List Section) :
    encodeSections (s :: t) = encodeSection s ++ encodeSections t := by
  simp [encodeSections]

theorem encodeModule_eq (secs : List Section) :
    encodeModule secs = wasmHeader ++ encodeSections secs := rfl

theorem encodeSection_eq (s : Section) :
    encodeSection s = [sectionTypeByte s] ++
      (lebEncode (sectionPayload s).length ++ sectionPayload s) := by
  simp [encodeSection]

theorem encodeSection_length (s : Section) :
    (encodeSection s).length =
      1 + (lebEncode (sectionPayload s).length).length + (sectionPayload s).length := by
  simp [encodeSection]
  omega

theorem encodeSection_len_ge (s : Section) : 2 ≤ (encodeSection s).length := by
  have := lebEncode_len_pos (sectionPayload s).length
  rw [encodeSection_length]
  omega

theorem sectionTypeByte_lt (s : Section) (hs : wfSection s = true) :
    sectionTypeByte s < 256 := by
  cases s with
  | custom name data => simp [sectionTypeByte]
  | exports es => simp [sectionTypeByte]
  | other ty payload =>
    simp only [wfSection, Bool.and_eq_true, decide_eq_true_eq] at hs
    simpa [sectionTypeByte] using hs.1.1.1.1

theorem sectionPayload_len_lt (s : Section) (hs : wfSection s = true) :
    (sectionPayload s).length < 2 ^ 32 - 1 := by
  cases s with
  | custom name data =>
    simp only [wfSection, Bool.and_eq_true, decide_eq_true_eq] at hs
    exact hs.2
  | exports es =>
    simp only [wfSection, Bool.and_eq_true, decide_eq_true_eq] at hs
    exact hs.2
  | other ty payload =>
    simp only [wfSection, Bool.and_eq_true, decide_eq_true_eq] at hs
    simpa [sectionPayload] using hs.2

theorem sectionType_byteAt (s : Section) (hs : wfSection s = true)
    (pre rest : List Nat) :
    byteAt (pre ++ (encodeSection s ++ rest)) pre.length = sectionTypeByte s := by
  rw [encodeSection_eq]
  have h : pre ++ (([sectionTypeByte s] ++
      (lebEncode (sectionPayload s).length ++ sectionPayload s)) ++ rest) =
      pre ++ sectionTypeByte s ::
        ((lebEncode (sectionPayload s).length ++ sectionPayload s) ++ rest) := by
    simp
  rw [h, byteAt_append_zero, Nat.mod_eq_of_lt (sectionTypeByte_lt s hs)]

theorem sectionHeader_parse (s : Section) (hs : wfSection s = true)
    (pre rest : List Nat) (endp : Nat)
    (hend : pre.length + (encodeSection s).length ≤ endp) :
    parseVarint (pre ++ (encodeSection s ++ rest)) endp (pre.length + 1) 0 =
      some ((sectionPayload s).length,
        pre.length + 1 + (lebEncode (sectionPayload s).length).length) := by
  apply parseVarint_encode_at _ _ _ (sectionPayload_len_lt s hs)
    (pre ++ [sectionTypeByte s]) (sectionPayload s ++ rest)
  · rw [encodeSection_eq]
    simp
  · simp
  · rw [encodeSection_length] at hend
    omega

theorem abiSections_skip (s : Section) (hs : wfSection s = true)
    (ht : sectionTypeByte s ≠ 7) (pre rest : List Nat) (fuel : Nat) :
    abiSections (pre ++ (encodeSection s ++ rest))
        (pre ++ (encodeSection s ++ rest)).length (fuel + 1) pre.length =
      abiSections (pre ++ (encodeSection s ++ rest))
        (pre ++ (encodeSection s ++ rest)).length fuel
        (pre.length + (encodeSection s).length) := by
  have hlen2 := encodeSection_len_ge s
  have hlb := lebEncode_len_pos (sectionPayload s).length
  have hE := encodeSection_length s
  have hL : (pre ++ (encodeSection s ++ rest)).length =
      pre.length + (encodeSection s).length + rest.length := by
    simp only [List.length_append]
    omega
  have hparse := sectionHeader_parse s hs pre rest
    (pre ++ (encodeSection s ++ rest)).length (by omega)
  simp only [abiSections]
  rw [if_neg (by omega), if_neg (by omega), sectionType_byteAt s hs]
  simp only [hparse]
  rw [if_neg (by omega), if_neg ht]
  congr 1
  omega

theorem abiSections_skip_walk (secs : List Section) :
    ∀ (pre rest : List Nat) (k : Nat),
    (∀ s ∈ secs, wfSection s = true) →
    (∀ s ∈ secs, sectionTypeByte s ≠ 7) →
    abiSections (pre ++ (encodeSections secs ++ rest))
        (pre ++ (encodeSections secs ++ rest)).length (secs.length + k) pre.length =
      abiSections (pre ++ (encodeSections secs ++ rest))
        (pre ++ (encodeSections secs ++ rest)).length k
        (pre.length + (encodeSections secs).length) := by
  induction secs with
  | nil =>
    intro pre rest k _ _
    simp [encodeSections_nil]
  | cons s t ih =>
    intro pre rest k hw h7
    have hre : pre ++ (encodeSections (s :: t) ++ rest) =
        pre ++ (encodeSection s ++ (encodeSections t ++ rest)) := by
      rw [encodeSections_cons]
      simp
    have hre2 : pre ++ (encodeSection s ++ (encodeSections t ++ rest)) =
        (pre ++ encodeSection s) ++ (encodeSections t ++ rest) := by
      simp
    have hlen : (s :: t).length + k = (t.length + k) + 1 := by simp; omega
    rw [hre, hlen, abiSections_skip s (hw s (by simp)) (h7 s (by simp)) pre
      (encodeSections t ++ rest) (t.length + k)]
    have hpos : pre.length + (encodeSection s).length = (pre ++ encodeSection s).length := by
      simp
    rw [hpos, hre2, ih (pre ++ encodeSection s) rest k
      (fun x hx => hw x (by simp [hx])) (fun x hx => h7 x (by simp [hx]))]
    rw [← hre2, ← hre]
    congr 1
    rw [encodeSections_cons]
    simp
    omega

theorem encodeExports_nil : encodeExports [] = [] := rfl

theorem encodeExports_cons (e : ExportEntry) (t : List ExportEntry) :
    encodeExports (e :: t) = encodeExport e ++ encodeExports t := by
  simp [encodeExports]

theorem sectionPayload_exports (es : List ExportEntry) :
    sectionPayload (.exports es) = lebEncode es.length ++ encodeExports es := rfl

theorem encodeExport_len_ge (e : ExportEntry) : 1 ≤ (encodeExport e).length := by
  unfold encodeExport
  have := lebEncode_len_pos e.name.length
  simp
  omega

theorem encodeExports_len_ge (es : List ExportEntry) :
    es.length ≤ (encodeExports es).length := by
  induction es with
  | nil => simp [encodeExports_nil]
  | cons e t ih =>
    rw [encodeExports_cons]
    have := encodeExport_len_ge e
    simp
    omega

theorem wfExport_unpack (e : ExportEntry) (he : wfExport e = true) :
    wfBytes e.name = true ∧ e.kind < 256 ∧ e.index < 2 ^ 32 ∧
      e.name.length < 2 ^ 32 - 1 ∧ (e.name.length + e.index) % 2 ^ 32 ≠ 2 ^ 32 - 1 := by
  simp only [wfExport, Bool.and_eq_true, decide_eq_true_eq] at he
  exact ⟨he.1.1.1.1, he.1.1.1.2, he.1.1.2, he.1.2, he.2⟩

theorem scanExports_skip (e : ExportEntry) (he : wfExport e = true)
    (hm : abiExportMatch e = false) (pre rest : List Nat) (count : Nat) :
    scanExports (pre ++ (encodeExport e ++ rest))
        (pre ++ (encodeExport e ++ rest)).length (count + 1) pre.length =
      scanExports (pre ++ (encodeExport e ++ rest))
        (pre ++ (encodeExport e ++ rest)).length count
        (pre.length + (encodeExport e).length) := by
  obtain ⟨hn, hk, hidx, hnl, hsent⟩ := wfExport_unpack e he
  have hEL : (encodeExport e).length = (lebEncode e.name.length).length +
      e.name.length + 1 + (lebEncode e.index).length := by
    simp [encodeExport]
    omega
  have hL : (pre ++ (encodeExport e ++ rest)).length =
      pre.length + (encodeExport e).length + rest.length := by
    simp only [List.length_append]
    omega
  have hparse1 : parseVarint (pre ++ (encodeExport e ++ rest))
      (pre ++ (encodeExport e ++ rest)).length pre.length 0 =
      some (e.name.length, pre.length + (lebEncode e.name.length).length) := by
    apply parseVarint_encode_at _ _ _ hnl pre
      (e.name ++ (e.kind :: (lebEncode e.index ++ rest)))
    · simp [encodeExport]
    · rfl
    · omega
  have hb : byteAt (pre ++ (encodeExport e ++ rest))
      (pre.length + (lebEncode e.name.length).length + e.name.length) = e.kind := by
    have h1 : pre ++ (encodeExport e ++ rest) =
        (pre ++ lebEncode e.name.length ++ e.name) ++
          e.kind :: (lebEncode e.index ++ rest) := by
      simp [encodeExport]
    have h2 : pre.length + (lebEncode e.name.length).length + e.name.length =
        (pre ++ lebEncode e.name.length ++ e.name).length := by
      simp only [List.length_append]
    rw [h1, h2, byteAt_append_zero, Nat.mod_eq_of_lt hk]
  have hname : (((pre ++ (encodeExport e ++ rest)).drop
      (pre.length + (lebEncode e.name.length).length)).take e.name.length).map (· % 256) =
      e.name := by
    have h1 : pre ++ (encodeExport e ++ rest) =
        (pre ++ lebEncode e.name.length) ++
          (e.name ++ (e.kind :: (lebEncode e.index ++ rest))) := by
      simp [encodeExport]
    have h2 : pre.length + (lebEncode e.name.length).length =
        (pre ++ lebEncode e.name.length).length := by simp
    rw [h1, h2, extract_append, map_mod_of_wf hn]
  have hparse2 : parseVarint (pre ++ (encodeExport e ++ rest))
      (pre ++ (encodeExport e ++ rest)).length
      (pre.length + (lebEncode e.name.length).length + e.name.length + 1) e.name.length =
      some ((e.name.length + e.index) % 2 ^ 32,
        pre.length + (lebEncode e.name.length).length + e.name.length + 1 +
          (lebEncode e.index).length) := by
    apply parseVarint_encode_acc_at _ _ _ _ hidx
      (pre ++ lebEncode e.name.length ++ e.name ++ [e.kind]) rest
    · simp [encodeExport]
    · simp only [List.length_append, List.length_singleton]
    · omega
    · exact hsent
  simp only [scanExports]
  simp only [hparse1]
  rw [if_neg (by omega)]
  rw [if_neg (by omega)]
  rw [hb, hname]
  rw [if_neg (fun hc => by
    rw [abiExportMatch, hc.1, hc.2] at hm
    simp at hm)]
  rw [if_neg (fun hc => by
    rw [abiExportMatch, hc.1, hc.2] at hm
    simp at hm)]
  rw [if_neg (fun hc => by
    rw [abiExportMatch, hc.1, hc.2] at hm
    simp at hm)]
  simp only [hparse2]
  congr 1
  omega

theorem scanExports_match021 (e : ExportEntry) (he : wfExport e = true)
    (hkind : e.kind = 0) (hname : e.name = strBytes "proxy_abi_version_0_2_1")
    (pre rest : List Nat) (count : Nat) :
    scanExports (pre ++ (encodeExport e ++ rest))
        (pre ++ (encodeExport e ++ rest)).length (count + 1) pre.length =
      some .ProxyWasm_0_2_1 := by
  obtain ⟨hn, hk, hidx, hnl, hsent⟩ := wfExport_unpack e he
  have hEL : (encodeExport e).length = (lebEncode e.name.length).length +
      e.name.length + 1 + (lebEncode e.index).length := by
    simp [encodeExport]
    omega
  have hL : (pre ++ (encodeExport e ++ rest)).length =
      pre.length + (encodeExport e).length + rest.length := by
    simp only [List.length_append]
    omega
  have hparse1 : parseVarint (pre ++ (encodeExport e ++ rest))
      (pre ++ (encodeExport e ++ rest)).length pre.length 0 =
      some (e.name.length, pre.length + (lebEncode e.name.length).length) := by
    apply parseVarint_encode_at _ _ _ hnl pre
      (e.name ++ (e.kind :: (lebEncode e.index ++ rest)))
    · simp [encodeExport]
    · rfl
    · omega
  have hb : byteAt (pre ++ (encodeExport e ++ rest))
      (pre.length + (lebEncode e.name.length).length + e.name.length) = e.kind := by
    have h1 : pre ++ (encodeExport e ++ rest) =
        (pre ++ lebEncode e.name.length ++ e.name) ++
          e.kind :: (lebEncode e.index ++ rest) := by
      simp [encodeExport]
    have h2 : pre.length + (lebEncode e.name.length).length + e.name.length =
        (pre ++ lebEncode e.name.length ++ e.name).length := by
      simp only [List.length_append]
    rw [h1, h2, byteAt_append_zero, Nat.mod_eq_of_lt hk]
  have hname2 : (((pre ++ (encodeExport e ++ rest)).drop
      (pre.length + (lebEncode e.name.length).length)).take e.name.length).map (· % 256) =
      e.name := by
    have h1 : pre ++ (encodeExport e ++ rest) =
        (pre ++ lebEncode e.name.length) ++
          (e.name ++ (e.kind :: (lebEncode e.index ++ rest))) := by
      simp [encodeExport]
    have h2 : pre.length + (lebEncode e.name.length).length =
        (pre ++ lebEncode e.name.length).length := by simp
    rw [h1, h2, extract_append, map_mod_of_wf hn]
  simp only [scanExports]
  simp only [hparse1]
  rw [if_neg (by omega)]
  rw [if_neg (by omega)]
  rw [hb, hname2]
  rw [if_neg (fun hc => by rw [hname] at hc; exact absurd hc.2 (by decide))]
  rw [if_neg (fun hc => by rw [hname] at hc; exact absurd hc.2 (by decide))]
  rw [if_pos ⟨hkind, hname⟩]

theorem scanExports_skip_walk (es : List ExportEntry) :
    ∀ (pre rest : List Nat) (k : Nat),
    (∀ e ∈ es, wfExport e = true) → (∀ e ∈ es, abiExportMatch e = false) →
    scanExports (pre ++ (encodeExports es ++ rest))
        (pre ++ (encodeExports es ++ rest)).length (es.length + k) pre.length =
      scanExports (pre ++ (encodeExports es ++ rest))
        (pre ++ (encodeExports es ++ rest)).length k
        (pre.length + (encodeExports es).length) := by
  induction es with
  | nil =>
    intro pre rest k _ _
    simp [encodeExports_nil]
  | cons e t ih =>
    intro pre rest k hw hm
    have hre : pre ++ (encodeExports (e :: t) ++ rest) =
        pre ++ (encodeExport e ++ (encodeExports t ++ rest)) := by
      rw [encodeExports_cons]
      simp
    have hre2 : pre ++ (encodeExport e ++ (encodeExports t ++ rest)) =
        (pre ++ encodeExport e) ++ (encodeExports t ++ rest) := by
      simp
    have hlen : (e :: t).length + k = (t.length + k) + 1 := by simp; omega
    rw [hre, hlen, scanExports_skip e (hw e (by simp)) (hm e (by simp)) pre
      (encodeExports t ++ rest) (t.length + k)]
    have hpos : pre.length + (encodeExport e).length = (pre ++ encodeExport e).length := by
      simp
    rw [hpos, hre2, ih (pre ++ encodeExport e) rest k
      (fun x hx => hw x (by simp [hx])) (fun x hx => hm x (by simp [hx]))]
    rw [← hre2, ← hre]
    congr 1
    rw [encodeExports_cons]
    simp
    omega

theorem wfSection_exports_unpack (es : List ExportEntry)
    (hs : wfSection (.exports es) = true) :
    (∀ e ∈ es, wfExport e = true) ∧ (sectionPayload (.exports es)).length < 2 ^ 32 - 1 := by
  simp only [wfSection, Bool.and_eq_true, decide_eq_true_eq, List.all_eq_true] at hs
  exact ⟨hs.1, hs.2⟩

theorem exports_count_lt (es : List ExportEntry)
    (hs : wfSection (.exports es) = true) : es.length < 2 ^ 32 - 1 := by
  have h1 := (wfSection_exports_unpack es hs).2
  have h2 := encodeExports_len_ge es
  rw [sectionPayload_exports] at h1
  simp only [List.length_append] at h1
  omega

theorem abiSections_exports (es : List ExportEntry)
    (hs : wfSection (.exports es) = true) (pre rest : List Nat) (fuel : Nat) :
    abiSections (pre ++ (encodeSection (.exports es) ++ rest))
        (pre ++ (encodeSection (.exports es) ++ rest)).length (fuel + 1) pre.length =
      scanExports (pre ++ (encodeSection (.exports es) ++ rest))
        (pre ++ (encodeSection (.exports es) ++ rest)).length es.length
        (pre.length + 1 + (lebEncode (sectionPayload (.exports es)).length).length +
          (lebEncode es.length).length) := by
  have hlen2 := encodeSection_len_ge (.exports es)
  have hlb := lebEncode_len_pos (sectionPayload (.exports es)).length
  have hlb2 := lebEncode_len_pos es.length
  have hE := encodeSection_length (.exports es)
  have hPL : (sectionPayload (.exports es)).length =
      (lebEncode es.length).length + (encodeExports es).length := by
    rw [sectionPayload_exports]
    simp
  have hcnt := exports_count_lt es hs
  have hjoin := encodeExports_len_ge es
  have hL : (pre ++ (encodeSection (.exports es) ++ rest)).length =
      pre.length + (encodeSection (.exports es)).length + rest.length := by
    simp only [List.length_append]
    omega
  have hparse := sectionHeader_parse (.exports es) hs pre rest
    (pre ++ (encodeSection (.exports es) ++ rest)).length (by omega)
  have hparse2 : parseVarint (pre ++ (encodeSection (.exports es) ++ rest))
      (pre ++ (encodeSection (.exports es) ++ rest)).length
      (pre.length + 1 + (lebEncode (sectionPayload (.exports es)).length).length) 0 =
      some (es.length,
        pre.length + 1 + (lebEncode (sectionPayload (.exports es)).length).length +
          (lebEncode es.length).length) := by
    apply parseVarint_encode_at _ _ _ hcnt
      (pre ++ sectionTypeByte (.exports es) ::
        lebEncode (sectionPayload (.exports es)).length)
      (encodeExports es ++ rest)
    · rw [encodeSection_eq, sectionPayload_exports]
      simp
    · simp only [List.length_append, List.length_cons]
      omega
    · omega
  simp only [abiSections]
  rw [if_neg (by omega), if_neg (by omega), sectionType_byteAt (.exports es) hs]
  simp only [hparse]
  rw [if_neg (by omega)]
  rw [if_pos (show sectionTypeByte (.exports es) = 7 from rfl)]
  simp only [hparse2]
  rw [if_neg (by omega)]

theorem checkWasmHeader_encodeModule (secs : List Section) :
    checkWasmHeader (encodeModule secs) = true := by
  have h4 : (encodeModule secs).take 4 = [0x00, 0x61, 0x73, 0x6d] := by
    rw [encodeModule_eq]
    unfold wasmHeader
    rw [List.take_append_of_le_length (by norm_num)]
    rfl
  unfold checkWasmHeader
  rw [h4]
  simp [wasmMagicNumber]

theorem getAbiVersion_encodeModule (secs : List Section) :
    getAbiVersion (encodeModule secs) =
      abiSections (encodeModule secs) (encodeModule secs).length
        ((encodeModule secs).length + 1) 8 := by
  have h := checkWasmHeader_encodeModule secs
  unfold getAbiVersion
  rw [h]
  norm_num

theorem encodeSections_append (a b : List Section) :
    encodeSections (a ++ b) = encodeSections a ++ encodeSections b := by
  simp [encodeSections]

theorem encodeExports_append (a b : List ExportEntry) :
    encodeExports (a ++ b) = encodeExports a ++ encodeExports b := by
  simp [encodeExports]

theorem encodeSections_len_ge (secs : List Section) :
    secs.length ≤ (encodeSections secs).length := by
  induction secs with
  | nil => simp [encodeSections_nil]
  | cons s t ih =>
    rw [encodeSections_cons]
    have := encodeSection_len_ge s
    simp
    omega

theorem sectionTypeByte_ne7 (s : Section) (hs : wfSection s = true)
    (hx : isExportSection s = false) : sectionTypeByte s ≠ 7 := by
  cases s with
  | custom name data => simp [sectionTypeByte]
  | exports es => simp [isExportSection] at hx
  | other ty payload =>
    simp only [wfSection, Bool.and_eq_true, decide_eq_true_eq] at hs
    simpa [sectionTypeByte] using hs.1.1.2

theorem wfModule_mem {secs : List Section} (hw : wfModule secs = true) :
    ∀ s ∈ secs, wfSection s = true := by
  simpa [wfModule, List.all_eq_true] using hw

theorem abiVersion_reach_exports (preS postS : List Section) (es : List ExportEntry)
    (hwf : wfModule (preS ++ Section.exports es :: postS) = true)
    (hnx : ∀ s ∈ preS, isExportSection s = false) (pre2 : List Nat)
    (hpre2 : pre2 = wasmHeader ++ encodeSections preS ++
      7 :: (lebEncode (sectionPayload (.exports es)).length ++ lebEncode es.length)) :
    getAbiVersion (encodeModule (preS ++ Section.exports es :: postS)) =
      scanExports (pre2 ++ (encodeExports es ++ encodeSections postS))
        (pre2 ++ (encodeExports es ++ encodeSections postS)).length es.length
        pre2.length := by
  have hwpre : ∀ s ∈ preS, wfSection s = true :=
    fun s hsm => wfModule_mem hwf s (by simp [hsm])
  have hwex : wfSection (.exports es) = true := wfModule_mem hwf _ (by simp)
  have h7 : ∀ s ∈ preS, sectionTypeByte s ≠ 7 :=
    fun s hsm => sectionTypeByte_ne7 s (hwpre s hsm) (hnx s hsm)
  -- the module's bytes, in the shape pre ++ (sections-of-preS ++ rest)
  have hbuf : encodeModule (preS ++ Section.exports es :: postS) =
      wasmHeader ++ (encodeSections preS ++
        (encodeSection (.exports es) ++ encodeSections postS)) := by
    rw [encodeModule_eq, encodeSections_append, encodeSections_cons]
  have hgoalbuf : encodeModule (preS ++ Section.exports es :: postS) =
      pre2 ++ (encodeExports es ++ encodeSections postS) := by
    rw [hbuf, hpre2, encodeSection_eq, sectionPayload_exports]
    simp [sectionTypeByte]
  rw [getAbiVersion_encodeModule]
  rw [hbuf]
  have hlen8 : (8 : Nat) = (wasmHeader : List Nat).length := rfl
  have hskge := encodeSections_len_ge preS
  have hLL : (wasmHeader ++ (encodeSections preS ++
      (encodeSection (.exports es) ++ encodeSections postS))).length =
      8 + (encodeSections preS).length + (encodeSection (.exports es)).length +
        (encodeSections postS).length := by
    simp only [List.length_append, show (wasmHeader : List Nat).length = 8 from rfl]
    omega
  have hfuel : (wasmHeader ++ (encodeSections preS ++
      (encodeSection (.exports es) ++ encodeSections postS))).length + 1 =
      preS.length + ((wasmHeader ++ (encodeSections preS ++
        (encodeSection (.exports es) ++ encodeSections postS))).length + 1 -
          preS.length) := by
    omega
  rw [hfuel, hlen8]
  rw [abiSections_skip_walk preS wasmHeader
    (encodeSection (.exports es) ++ encodeSections postS) _ hwpre h7]
  have hre2 : wasmHeader ++ (encodeSections preS ++
      (encodeSection (.exports es) ++ encodeSections postS)) =
      (wasmHeader ++ encodeSections preS) ++
        (encodeSection (.exports es) ++ encodeSections postS) := by
    simp
  have hpos1 : (wasmHeader : List Nat).length + (encodeSections preS).length =
      (wasmHeader ++ encodeSections preS).length := by
    simp
  have hk1 : (wasmHeader ++ (encodeSections preS ++
      (encodeSection (.exports es) ++ encodeSections postS))).length + 1 - preS.length =
      ((wasmHeader ++ (encodeSections preS ++
        (encodeSection (.exports es) ++ encodeSections postS))).length - preS.length) + 1 := by
    have := encodeSection_len_ge (.exports es)
    omega
  rw [hpos1, hk1, hre2]
  rw [abiSections_exports es hwex (wasmHeader ++ encodeSections preS)
    (encodeSections postS) _]
  rw [← hre2, ← hbuf, hgoalbuf]
  congr 1
  rw [hpre2]
  simp only [List.length_append, List.length_cons]
  omega

theorem abiVersion_no_exports (secs : List Section) (hwf : wfModule secs = true)
    (hnx : ∀ s ∈ secs, isExportSection s = false) :
    getAbiVersion (encodeModule secs) = some AbiVersion.Unknown := by
  have hwall := wfModule_mem hwf
  have h7 : ∀ s ∈ secs, sectionTypeByte s ≠ 7 :=
    fun s hsm => sectionTypeByte_ne7 s (hwall s hsm) (hnx s hsm)
  rw [getAbiVersion_encodeModule]
  have hbuf : encodeModule secs = wasmHeader ++ (encodeSections secs ++ []) := by
    rw [encodeModule_eq]
    simp
  rw [hbuf]
  have hskge := encodeSections_len_ge secs
  have hLL : (wasmHeader ++ (encodeSections secs ++ [])).length =
      8 + (encodeSections secs).length := by
    simp only [List.length_append, List.length_nil,
      show (wasmHeader : List Nat).length = 8 from rfl]
    omega
  have hfuel : (wasmHeader ++ (encodeSections secs ++ [])).length + 1 =
      secs.length +
        ((wasmHeader ++ (encodeSections secs ++ [])).length + 1 - secs.length) := by
    omega
  have hlen8 : (8 : Nat) = (wasmHeader : List Nat).length := rfl
  rw [hfuel, hlen8, abiSections_skip_walk secs wasmHeader [] _ hwall h7]
  have hk : (wasmHeader ++ (encodeSections secs ++ [])).length + 1 - secs.length =
      ((wasmHeader ++ (encodeSections secs ++ [])).length - secs.length) + 1 := by
    omega
  rw [hk]
  simp only [abiSections]
  rw [if_pos (by simp only [List.length_append, List.length_nil]; omega)]

theorem scanExports_skip_all (es : List ExportEntry) (pre rest : List Nat)
    (hw : ∀ e ∈ es, wfExport e = true) (hm : ∀ e ∈ es, abiExportMatch e = false) :
    scanExports (pre ++ (encodeExports es ++ rest))
        (pre ++ (encodeExports es ++ rest)).length es.length pre.length =
      some AbiVersion.Unknown := by
  have h := scanExports_skip_walk es pre rest 0 hw hm
  rw [Nat.add_zero] at h
  rw [h]
  rfl

theorem abiVersion_exports_no_match (preS postS : List Section) (es : List ExportEntry)
    (hwf : wfModule (preS ++ Section.exports es :: postS) = true)
    (hnx : ∀ s ∈ preS, isExportSection s = false)
    (hm : ∀ x ∈ es, abiExportMatch x = false) :
    getAbiVersion (encodeModule (preS ++ Section.exports es :: postS)) =
      some AbiVersion.Unknown := by
  rw [abiVersion_reach_exports preS postS es hwf hnx _ rfl]
  have hwex : wfSection (.exports es) = true := wfModule_mem hwf _ (by simp)
  have hwes := (wfSection_exports_unpack es hwex).1
  exact scanExports_skip_all es _ _ hwes hm

theorem abiVersion_first_match (preS postS : List Section)
    (es1 es2 : List ExportEntry) (e : ExportEntry)
    (hwf : wfModule (preS ++ Section.exports (es1 ++ e :: es2) :: postS) = true)
    (hnx : ∀ s ∈ preS, isExportSection s = false)
    (hm1 : ∀ x ∈ es1, abiExportMatch x = false)
    (hk : e.kind = 0) (hname : e.name = strBytes "proxy_abi_version_0_2_1") :
    getAbiVersion (encodeModule (preS ++ Section.exports (es1 ++ e :: es2) :: postS)) =
      some AbiVersion.ProxyWasm_0_2_1 := by
  rw [abiVersion_reach_exports preS postS (es1 ++ e :: es2) hwf hnx _ rfl]
  have hwex : wfSection (.exports (es1 ++ e :: es2)) = true :=
    wfModule_mem hwf _ (by simp)
  have hwes := (wfSection_exports_unpack _ hwex).1
  have hw1 : ∀ x ∈ es1, wfExport x = true := fun x hx => hwes x (by simp [hx])
  have hwe : wfExport e = true := hwes e (by simp)
  generalize (wasmHeader ++ encodeSections preS ++
      7 :: (lebEncode (sectionPayload (.exports (es1 ++ e :: es2))).length ++
        lebEncode (es1 ++ e :: es2).length) : List Nat) = p
  have hsplit : p ++ (encodeExports (es1 ++ e :: es2) ++ encodeSections postS) =
      p ++ (encodeExports es1 ++
        (encodeExport e ++ (encodeExports es2 ++ encodeSections postS))) := by
    rw [encodeExports_append, encodeExports_cons]
    simp
  have hcnt : (es1 ++ e :: es2).length = es1.length + (es2.length + 1) := by
    simp
  rw [hsplit, hcnt, scanExports_skip_walk es1 p
    (encodeExport e ++ (encodeExports es2 ++ encodeSections postS)) (es2.length + 1)
    hw1 hm1]
  have hre3 : p ++ (encodeExports es1 ++
      (encodeExport e ++ (encodeExports es2 ++ encodeSections postS))) =
      (p ++ encodeExports es1) ++
        (encodeExport e ++ (encodeExports es2 ++ encodeSections postS)) := by
    simp
  have hpos3 : p.length + (encodeExports es1).length =
      (p ++ encodeExports es1).length := by
    simp
  rw [hpos3, hre3, scanExports_match021 e hwe hk hname (p ++ encodeExports es1) _
    es2.length]

/-- Claim C6, amended: `getAbiVersion` scans the first export section's entries
in order and the FIRST function export whose name is one of the three known ABI
names determines the result.  A module whose first export section contains a
function export named `proxy_abi_version_0_2_1` preceded by no other ABI-named
function export yields `ProxyWasm_0_2_1`; a structurally valid module with no
export section, or whose first export section contains no ABI-named function
export, succeeds with `Unknown`.  (Well-formedness includes, for each export,
that its name length plus its index does not accumulate to `2 ^ 32 - 1`, since
the scanner reuses the name-size variable as the varint accumulator when
skipping the export index.) -/
theorem c6_first_abi_export_wins :
    (∀ (preS postS : List Section) (es1 es2 : List ExportEntry) (e : ExportEntry),
      wfModule (preS ++ Section.exports (es1 ++ e :: es2) :: postS) = true →
      (∀ s ∈ preS, isExportSection s = false) →
      (∀ x ∈ es1, abiExportMatch x = false) →
      e.kind = 0 → e.name = strBytes "proxy_abi_version_0_2_1" →
      getAbiVersion (encodeModule (preS ++ Section.exports (es1 ++ e :: es2) :: postS)) =
        some AbiVersion.ProxyWasm_0_2_1) ∧
    (∀ secs : List Section, wfModule secs = true →
      (∀ s ∈ secs, isExportSection s = false) →
      getAbiVersion (encodeModule secs) = some AbiVersion.Unknown) ∧
    (∀ (preS postS : List Section) (es : List ExportEntry),
      wfModule (preS ++ Section.exports es :: postS) = true →
      (∀ s ∈ preS, isExportSection s = false) →
      (∀ x ∈ es, abiExportMatch x = false) →
      getAbiVersion (encodeModule (preS ++ Section.exports es :: postS)) =
        some AbiVersion.Unknown) :=
  ⟨abiVersion_first_match, abiVersion_no_exports, abiVersion_exports_no_match⟩

/-- Witness for `c6_first_abi_export_wins` on three tiny modules. -/
theorem c6_first_abi_export_wins_witness :
    (wfModule [Section.exports [⟨strBytes "proxy_abi_version_0_2_1", 0, 0⟩]] = true ∧
      getAbiVersion (encodeModule
        [Section.exports [⟨strBytes "proxy_abi_version_0_2_1", 0, 0⟩]]) =
        some AbiVersion.ProxyWasm_0_2_1) ∧
    (wfModule [Section.other 1 [96]] = true ∧
      getAbiVersion (encodeModule [Section.other 1 [96]]) = some AbiVersion.Unknown) ∧
    (wfModule [Section.exports [⟨strBytes "memory", 2, 0⟩]] = true ∧
      getAbiVersion (encodeModule [Section.exports [⟨strBytes "memory", 2, 0⟩]]) =
        some AbiVersion.Unknown) :=
  ⟨⟨by decide, c6_first_abi_export_wins.1 [] [] [] []
      ⟨strBytes "proxy_abi_version_0_2_1", 0, 0⟩ (by decide) (by decide) (by decide)
      rfl rfl⟩,
   ⟨by decide, c6_first_abi_export_wins.2.1 [Section.other 1 [96]] (by decide) (by decide)⟩,
   ⟨by decide, c6_first_abi_export_wins.2.2 [] [] [⟨strBytes "memory", 2, 0⟩]
      (by decide) (by decide) (by decide)⟩⟩


/-! ## Custom-section lemmas and claim C10 -/

theorem wfSection_custom_unpack (nm data : List Nat)
    (hs : wfSection (.custom nm data) = true) :
    wfBytes nm = true ∧ wfBytes data = true ∧
      (sectionPayload (.custom nm data)).length < 2 ^ 32 - 1 := by
  simp only [wfSection, Bool.and_eq_true, decide_eq_true_eq] at hs
  exact ⟨hs.1.1, hs.1.2, hs.2⟩

theorem sectionPayload_custom (nm data : List Nat) :
    sectionPayload (.custom nm data) = lebEncode nm.length ++ nm ++ data := rfl

theorem customSections_nonzero_skip (s : Section) (hs : wfSection s = true)
    (ht : sectionTypeByte s ≠ 0) (name : List Nat) (pre rest : List Nat) (fuel : Nat) :
    customSections (pre ++ (encodeSection s ++ rest))
        (pre ++ (encodeSection s ++ rest)).length name (fuel + 1) pre.length =
      customSections (pre ++ (encodeSection s ++ rest))
        (pre ++ (encodeSection s ++ rest)).length name fuel
        (pre.length + (encodeSection s).length) := by
  have hlen2 := encodeSection_len_ge s
  have hlb := lebEncode_len_pos (sectionPayload s).length
  have hE := encodeSection_length s
  have hL : (pre ++ (encodeSection s ++ rest)).length =
      pre.length + (encodeSection s).length + rest.length := by
    simp only [List.length_append]
    omega
  have hparse := sectionHeader_parse s hs pre rest
    (pre ++ (encodeSection s ++ rest)).length (by omega)
  simp only [customSections]
  rw [if_neg (by omega), if_neg (by omega), sectionType_byteAt s hs]
  simp only [hparse]
  rw [if_neg (by omega), if_neg ht]
  congr 1
  omega

/-- Parsing the section-local name-length varint of an encoded custom section,
and the name bytes that follow it. -/
theorem customName_parse (nm data : List Nat)
    (hs : wfSection (.custom nm data) = true) (pre rest : List Nat) (endp : Nat)
    (hend : pre.length + (encodeSection (.custom nm data)).length ≤ endp) :
    parseVarint (pre ++ (encodeSection (.custom nm data) ++ rest)) endp
        (pre.length + 1 +
          (lebEncode (sectionPayload (.custom nm data)).length).length) 0 =
      some (nm.length,
        pre.length + 1 + (lebEncode (sectionPayload (.custom nm data)).length).length +
          (lebEncode nm.length).length) := by
  obtain ⟨hnm, hdt, hpl⟩ := wfSection_custom_unpack nm data hs
  have hE := encodeSection_length (.custom nm data)
  have hPL : (sectionPayload (.custom nm data)).length =
      (lebEncode nm.length).length + nm.length + data.length := by
    rw [sectionPayload_custom]
    simp only [List.length_append]
  apply parseVarint_encode_at _ _ _ (by omega)
    (pre ++ sectionTypeByte (.custom nm data) ::
      lebEncode (sectionPayload (.custom nm data)).length)
    (nm ++ (data ++ rest))
  · rw [encodeSection_eq, sectionPayload_custom]
    simp
  · simp only [List.length_append, List.length_cons]
    omega
  · rw [encodeSection_length] at hend
    have := lebEncode_len_pos nm.length
    omega

theorem customName_bytes (nm data : List Nat)
    (hs : wfSection (.custom nm data) = true) (pre rest : List Nat) :
    (((pre ++ (encodeSection (.custom nm data) ++ rest)).drop
        (pre.length + 1 +
          (lebEncode (sectionPayload (.custom nm data)).length).length +
          (lebEncode nm.length).length)).take nm.length).map (· % 256) = nm := by
  obtain ⟨hnm, hdt, hpl⟩ := wfSection_custom_unpack nm data hs
  have h1 : pre ++ (encodeSection (.custom nm data) ++ rest) =
      (pre ++ sectionTypeByte (.custom nm data) ::
        (lebEncode (sectionPayload (.custom nm data)).length ++ lebEncode nm.length)) ++
        (nm ++ (data ++ rest)) := by
    rw [encodeSection_eq, sectionPayload_custom]
    simp
  have h2 : pre.length + 1 +
      (lebEncode (sectionPayload (.custom nm data)).length).length +
      (lebEncode nm.length).length =
      (pre ++ sectionTypeByte (.custom nm data) ::
        (lebEncode (sectionPayload (.custom nm data)).length ++
          lebEncode nm.length)).length := by
    simp only [List.length_append, List.length_cons]
    omega
  rw [h1, h2, extract_append, map_mod_of_wf hnm]

theorem customSections_other_name_skip (nm data name : List Nat)
    (hs : wfSection (.custom nm data) = true) (hne : nm ≠ name)
    (pre rest : List Nat) (fuel : Nat) :
    customSections (pre ++ (encodeSection (.custom nm data) ++ rest))
        (pre ++ (encodeSection (.custom nm data) ++ rest)).length name (fuel + 1)
        pre.length =
      customSections (pre ++ (encodeSection (.custom nm data) ++ rest))
        (pre ++ (encodeSection (.custom nm data) ++ rest)).length name fuel
        (pre.length + (encodeSection (.custom nm data)).length) := by
  obtain ⟨hnm, hdt, hpl⟩ := wfSection_custom_unpack nm data hs
  have hlen2 := encodeSection_len_ge (.custom nm data)
  have hlb := lebEncode_len_pos (sectionPayload (.custom nm data)).length
  have hlb2 := lebEncode_len_pos nm.length
  have hE := encodeSection_length (.custom nm data)
  have hPL : (sectionPayload (.custom nm data)).length =
      (lebEncode nm.length).length + nm.length + data.length := by
    rw [sectionPayload_custom]
    simp only [List.length_append]
  have hL : (pre ++ (encodeSection (.custom nm data) ++ rest)).length =
      pre.length + (encodeSection (.custom nm data)).length + rest.length := by
    simp only [List.length_append]
    omega
  have hparse := sectionHeader_parse (.custom nm data) hs pre rest
    (pre ++ (encodeSection (.custom nm data) ++ rest)).length (by omega)
  have hparse2 := customName_parse nm data hs pre rest
    (pre ++ (encodeSection (.custom nm data) ++ rest)).length (by omega)
  have hbytes := customName_bytes nm data hs pre rest
  simp only [customSections]
  rw [if_neg (by omega), if_neg (by omega),
    sectionType_byteAt (.custom nm data) hs]
  simp only [hparse]
  rw [if_neg (by omega)]
  rw [if_pos (show sectionTypeByte (.custom nm data) = 0 from rfl)]
  simp only [hparse2]
  rw [if_neg (by omega)]
  rw [hbytes]
  rw [if_neg (fun hc => hne hc.2)]
  congr 1
  omega

theorem customSections_found (nm data : List Nat)
    (hs : wfSection (.custom nm data) = true) (pre rest : List Nat) (fuel : Nat) :
    customSections (pre ++ (encodeSection (.custom nm data) ++ rest))
        (pre ++ (encodeSection (.custom nm data) ++ rest)).length nm (fuel + 1)
        pre.length = some data := by
  obtain ⟨hnm, hdt, hpl⟩ := wfSection_custom_unpack nm data hs
  have hlen2 := encodeSection_len_ge (.custom nm data)
  have hlb := lebEncode_len_pos (sectionPayload (.custom nm data)).length
  have hlb2 := lebEncode_len_pos nm.length
  have hE := encodeSection_length (.custom nm data)
  have hPL : (sectionPayload (.custom nm data)).length =
      (lebEncode nm.length).length + nm.length + data.length := by
    rw [sectionPayload_custom]
    simp only [List.length_append]
  have hL : (pre ++ (encodeSection (.custom nm data) ++ rest)).length =
      pre.length + (encodeSection (.custom nm data)).length + rest.length := by
    simp only [List.length_append]
    omega
  have hparse := sectionHeader_parse (.custom nm data) hs pre rest
    (pre ++ (encodeSection (.custom nm data) ++ rest)).length (by omega)
  have hparse2 := customName_parse nm data hs pre rest
    (pre ++ (encodeSection (.custom nm data) ++ rest)).length (by omega)
  have hbytes := customName_bytes nm data hs pre rest
  simp only [customSections]
  rw [if_neg (by omega), if_neg (by omega),
    sectionType_byteAt (.custom nm data) hs]
  simp only [hparse]
  rw [if_neg (by omega)]
  rw [if_pos (show sectionTypeByte (.custom nm data) = 0 from rfl)]
  simp only [hparse2]
  rw [if_neg (by omega)]
  rw [hbytes]
  rw [if_pos ⟨by trivial, rfl⟩]
  have hdata : (((pre ++ (encodeSection (.custom nm data) ++ rest)).drop
      (pre.length + 1 + (lebEncode (sectionPayload (.custom nm data)).length).length +
        (lebEncode nm.length).length + nm.length)).take
      (pre.length + 1 + (lebEncode (sectionPayload (.custom nm data)).length).length +
        (sectionPayload (.custom nm data)).length -
        (pre.length + 1 + (lebEncode (sectionPayload (.custom nm data)).length).length +
          (lebEncode nm.length).length + nm.length))).map (· % 256) = data := by
    have hdiff : pre.length + 1 +
        (lebEncode (sectionPayload (.custom nm data)).length).length +
        (sectionPayload (.custom nm data)).length -
        (pre.length + 1 + (lebEncode (sectionPayload (.custom nm data)).length).length +
          (lebEncode nm.length).length + nm.length) = data.length := by
      omega
    have h1 : pre ++ (encodeSection (.custom nm data) ++ rest) =
        (pre ++ sectionTypeByte (.custom nm data) ::
          (lebEncode (sectionPayload (.custom nm data)).length ++
            (lebEncode nm.length ++ nm))) ++ (data ++ rest) := by
      rw [encodeSection_eq, sectionPayload_custom]
      simp
    have h2 : pre.length + 1 +
        (lebEncode (sectionPayload (.custom nm data)).length).length +
        (lebEncode nm.length).length + nm.length =
        (pre ++ sectionTypeByte (.custom nm data) ::
          (lebEncode (sectionPayload (.custom nm data)).length ++
            (lebEncode nm.length ++ nm))).length := by
      simp only [List.length_append, List.length_cons]
      omega
    rw [hdiff, h1, h2, extract_append, map_mod_of_wf hdt]
  rw [hdata]

theorem customSections_skip (s : Section) (hs : wfSection s = true) (name : List Nat)
    (hnm : isCustomNamed name s = false) (pre rest : List Nat) (fuel : Nat) :
    customSections (pre ++ (encodeSection s ++ rest))
        (pre ++ (encodeSection s ++ rest)).length name (fuel + 1) pre.length =
      customSections (pre ++ (encodeSection s ++ rest))
        (pre ++ (encodeSection s ++ rest)).length name fuel
        (pre.length + (encodeSection s).length) := by
  cases s with
  | custom nm data =>
    apply customSections_other_name_skip nm data name hs _ pre rest fuel
    simpa [isCustomNamed] using hnm
  | exports es =>
    exact customSections_nonzero_skip _ hs (by simp [sectionTypeByte]) name pre rest fuel
  | other ty payload =>
    apply customSections_nonzero_skip _ hs _ name pre rest fuel
    simp only [wfSection, Bool.and_eq_true, decide_eq_true_eq] at hs
    simpa [sectionTypeByte] using hs.1.1.1.2

theorem customSections_skip_walk (secs : List Section) :
    ∀ (pre rest : List Nat) (k : Nat) (name : List Nat),
    (∀ s ∈ secs, wfSection s = true) →
    (∀ s ∈ secs, isCustomNamed name s = false) →
    customSections (pre ++ (encodeSections secs ++ rest))
        (pre ++ (encodeSections secs ++ rest)).length name (secs.length + k)
        pre.length =
      customSections (pre ++ (encodeSections secs ++ rest))
        (pre ++ (encodeSections secs ++ rest)).length name k
        (pre.length + (encodeSections secs).length) := by
  induction secs with
  | nil =>
    intro pre rest k name _ _
    simp [encodeSections_nil]
  | cons s t ih =>
    intro pre rest k name hw hnm
    have hre : pre ++ (encodeSections (s :: t) ++ rest) =
        pre ++ (encodeSection s ++ (encodeSections t ++ rest)) := by
      rw [encodeSections_cons]
      simp
    have hre2 : pre ++ (encodeSection s ++ (encodeSections t ++ rest)) =
        (pre ++ encodeSection s) ++ (encodeSections t ++ rest) := by
      simp
    have hlen : (s :: t).length + k = (t.length + k) + 1 := by
      simp
      omega
    rw [hre, hlen, customSections_skip s (hw s (by simp)) name (hnm s (by simp)) pre
      (encodeSections t ++ rest) (t.length + k)]
    have hpos : pre.length + (encodeSection s).length = (pre ++ encodeSection s).length := by
      simp
    rw [hpos, hre2, ih (pre ++ encodeSection s) rest k name
      (fun x hx => hw x (by simp [hx])) (fun x hx => hnm x (by simp [hx]))]
    rw [← hre2, ← hre]
    congr 1
    rw [encodeSections_cons]
    simp
    omega

theorem getCustomSection_encodeModule (secs : List Section) (name : List Nat) :
    getCustomSection (encodeModule secs) name =
      customSections (encodeModule secs) (encodeModule secs).length name
        ((encodeModule secs).length + 1) 8 := by
  have h := checkWasmHeader_encodeModule secs
  unfold getCustomSection
  rw [h]
  norm_num

theorem customSection_not_found (secs : List Section) (name : List Nat)
    (hwf : wfModule secs = true)
    (hnm : ∀ s ∈ secs, isCustomNamed name s = false) :
    getCustomSection (encodeModule secs) name = some [] := by
  have hwall := wfModule_mem hwf
  rw [getCustomSection_encodeModule]
  have hbuf : encodeModule secs = wasmHeader ++ (encodeSections secs ++ []) := by
    rw [encodeModule_eq]
    simp
  rw [hbuf]
  have hskge := encodeSections_len_ge secs
  have hLL : (wasmHeader ++ (encodeSections secs ++ [])).length =
      8 + (encodeSections secs).length := by
    simp only [List.length_append, List.length_nil,
      show (wasmHeader : List Nat).length = 8 from rfl]
    omega
  have hfuel : (wasmHeader ++ (encodeSections secs ++ [])).length + 1 =
      secs.length +
        ((wasmHeader ++ (encodeSections secs ++ [])).length + 1 - secs.length) := by
    omega
  have hlen8 : (8 : Nat) = (wasmHeader : List Nat).length := rfl
  rw [hfuel, hlen8, customSections_skip_walk secs wasmHeader [] _ name hwall hnm]
  have hk : (wasmHeader ++ (encodeSections secs ++ [])).length + 1 - secs.length =
      ((wasmHeader ++ (encodeSections secs ++ [])).length - secs.length) + 1 := by
    omega
  rw [hk]
  simp only [customSections]
  rw [if_pos (by simp only [List.length_append, List.length_nil]; omega)]

theorem customSection_found_first (preS postS : List Section) (name data : List Nat)
    (hwf : wfModule (preS ++ Section.custom name data :: postS) = true)
    (hnm : ∀ s ∈ preS, isCustomNamed name s = false) :
    getCustomSection (encodeModule (preS ++ Section.custom name data :: postS)) name =
      some data := by
  have hwpre : ∀ s ∈ preS, wfSection s = true :=
    fun s hsm => wfModule_mem hwf s (by simp [hsm])
  have hwc : wfSection (.custom name data) = true := wfModule_mem hwf _ (by simp)
  rw [getCustomSection_encodeModule]
  have hbuf : encodeModule (preS ++ Section.custom name data :: postS) =
      wasmHeader ++ (encodeSections preS ++
        (encodeSection (.custom name data) ++ encodeSections postS)) := by
    rw [encodeModule_eq, encodeSections_append, encodeSections_cons]
  rw [hbuf]
  have hskge := encodeSections_len_ge preS
  have hLL : (wasmHeader ++ (encodeSections preS ++
      (encodeSection (.custom name data) ++ encodeSections postS))).length =
      8 + (encodeSections preS).length + (encodeSection (.custom name data)).length +
        (encodeSections postS).length := by
    simp only [List.length_append, show (wasmHeader : List Nat).length = 8 from rfl]
    omega
  have hfuel : (wasmHeader ++ (encodeSections preS ++
      (encodeSection (.custom name data) ++ encodeSections postS))).length + 1 =
      preS.length + ((wasmHeader ++ (encodeSections preS ++
        (encodeSection (.custom name data) ++ encodeSections postS))).length + 1 -
          preS.length) := by
    omega
  have hlen8 : (8 : Nat) = (wasmHeader : List Nat).length := rfl
  rw [hfuel, hlen8, customSections_skip_walk preS wasmHeader
    (encodeSection (.custom name data) ++ encodeSections postS) _ name hwpre hnm]
  have hk : (wasmHeader ++ (encodeSections preS ++
      (encodeSection (.custom name data) ++ encodeSections postS))).length + 1 -
      preS.length =
      ((wasmHeader ++ (encodeSections preS ++
        (encodeSection (.custom name data) ++ encodeSections postS))).length -
          preS.length) + 1 := by
    have := encodeSection_len_ge (.custom name data)
    omega
  have hpos : (wasmHeader : List Nat).length + (encodeSections preS).length =
      (wasmHeader ++ encodeSections preS).length := by
    simp
  have hre2 : wasmHeader ++ (encodeSections preS ++
      (encodeSection (.custom name data) ++ encodeSections postS)) =
      (wasmHeader ++ encodeSections preS) ++
        (encodeSection (.custom name data) ++ encodeSections postS) := by
    simp
  rw [hpos, hk, hre2, customSections_found name data hwc
    (wasmHeader ++ encodeSections preS) (encodeSections postS) _]

/-- Claim C10: a caller cannot distinguish "no custom section with the
requested name" from "a matching custom section whose payload after the name
is empty": `getCustomSection` answers success with an empty range in both
cases, and `getFunctionNameIndex` treats both identically as success with an
empty mapping. -/
theorem c10_not_found_equals_found_empty :
    (∀ secs : List Section, wfModule secs = true →
      (∀ s ∈ secs, isCustomNamed (strBytes "name") s = false) →
      getCustomSection (encodeModule secs) (strBytes "name") = some [] ∧
      getFunctionNameIndex (encodeModule secs) = (true, [])) ∧
    (∀ preS postS : List Section,
      wfModule (preS ++ Section.custom (strBytes "name") [] :: postS) = true →
      (∀ s ∈ preS, isCustomNamed (strBytes "name") s = false) →
      getCustomSection (encodeModule (preS ++ Section.custom (strBytes "name") [] :: postS))
          (strBytes "name") = some [] ∧
      getFunctionNameIndex (encodeModule (preS ++ Section.custom (strBytes "name") [] :: postS)) =
        (true, [])) := by
  constructor
  · intro secs hwf hnm
    have h := customSection_not_found secs (strBytes "name") hwf hnm
    refine ⟨h, ?_⟩
    unfold getFunctionNameIndex
    simp only [h]
    simp
  · intro preS postS hwf hnm
    have h := customSection_found_first preS postS (strBytes "name") [] hwf hnm
    refine ⟨h, ?_⟩
    unfold getFunctionNameIndex
    simp only [h]
    simp

/-- Witness for `c10_not_found_equals_found_empty`: a module with a single
type section (no custom section at all) and a module whose only section is a
custom section named `"name"` with empty payload. -/
theorem c10_not_found_equals_found_empty_witness :
    (wfModule [Section.other 1 [96]] = true ∧
      getCustomSection (encodeModule [Section.other 1 [96]]) (strBytes "name") =
        some [] ∧
      getFunctionNameIndex (encodeModule [Section.other 1 [96]]) = (true, [])) ∧
    (wfModule [Section.custom (strBytes "name") []] = true ∧
      getCustomSection (encodeModule [Section.custom (strBytes "name") []])
          (strBytes "name") = some [] ∧
      getFunctionNameIndex (encodeModule [Section.custom (strBytes "name") []]) =
        (true, [])) := by
  refine ⟨⟨by decide, ?_, ?_⟩, ⟨by decide, ?_, ?_⟩⟩
  · exact (c10_not_found_equals_found_empty.1 [Section.other 1 [96]] (by decide)
      (by decide)).1
  · exact (c10_not_found_equals_found_empty.1 [Section.other 1 [96]] (by decide)
      (by decide)).2
  · exact (c10_not_found_equals_found_empty.2 [] [] (by decide) (by decide)).1
  · exact (c10_not_found_equals_found_empty.2 [] [] (by decide) (by decide)).2


/-! ## Name-subsection lemmas and claim C9 -/

theorem encodePairs_eq (ps : List (Nat × List Nat)) :
    encodePairs ps = lebEncode ps.length ++ encodePairItems ps := rfl

theorem encodePairItems_nil : encodePairItems [] = [] := rfl

theorem encodePairItems_cons (p : Nat × List Nat) (t : List (Nat × List Nat)) :
    encodePairItems (p :: t) = encodePair p ++ encodePairItems t := by
  simp [encodePairItems]

theorem encodePair_len_ge (p : Nat × List Nat) : 1 ≤ (encodePair p).length := by
  unfold encodePair
  have := lebEncode_len_pos p.1
  simp
  omega

theorem encodePairItems_len_ge (ps : List (Nat × List Nat)) :
    ps.length ≤ (encodePairItems ps).length := by
  induction ps with
  | nil => simp [encodePairItems_nil]
  | cons p t ih =>
    rw [encodePairItems_cons]
    have := encodePair_len_ge p
    simp
    omega

theorem lebEncodeAux_len_le (f v : Nat) : (lebEncodeAux f v).length ≤ f + 1 := by
  induction f generalizing v with
  | zero => simp [lebEncodeAux]
  | succ f ih =>
    simp only [lebEncodeAux]
    split
    · simp
    · have := ih (v / 128)
      simp
      omega

theorem lebEncode_len_le (v : Nat) : (lebEncode v).length ≤ 7 :=
  lebEncodeAux_len_le 6 v

theorem wfPair_unpack (p : Nat × List Nat) (hp : wfPair p = true) :
    p.1 < 2 ^ 32 - 1 ∧ wfBytes p.2 = true ∧ p.2.length < 2 ^ 32 - 1 := by
  simp only [wfPair, Bool.and_eq_true, decide_eq_true_eq] at hp
  exact ⟨hp.1.1, hp.1.2, hp.2⟩

theorem wfBytes_encodePair (p : Nat × List Nat) (hp : wfPair p = true) :
    wfBytes (encodePair p) = true := by
  obtain ⟨h1, h2, h3⟩ := wfPair_unpack p hp
  unfold encodePair
  rw [wfBytes_append, wfBytes_append, lebEncode_wf, lebEncode_wf, h2]
  rfl

theorem wfBytes_flatten (L : List (List Nat)) (h : ∀ l ∈ L, wfBytes l = true) :
    wfBytes L.flatten = true := by
  induction L with
  | nil => rfl
  | cons a t ih =>
    rw [List.flatten_cons, wfBytes_append, h a (by simp), ih (fun l hl => h l (by simp [hl]))]
    rfl

theorem wfBytes_encodePairs (ps : List (Nat × List Nat))
    (hp : ∀ p ∈ ps, wfPair p = true) : wfBytes (encodePairs ps) = true := by
  rw [encodePairs_eq, wfBytes_append, lebEncode_wf]
  rw [show wfBytes (encodePairItems ps) = true from
    wfBytes_flatten _ (by
      intro l hl
      simp only [encodePairItems, List.mem_map] at hl
      obtain ⟨p, hpm, rfl⟩ := hl
      exact wfBytes_encodePair p (hp p hpm))]
  rfl

theorem nameMapLoop_encode (ps : List (Nat × List Nat)) :
    ∀ (pre rest : List Nat) (m : List (Nat × List Nat)) (endp : Nat),
    (∀ p ∈ ps, wfPair p = true) →
    pre.length + (encodePairItems ps).length ≤ endp →
    nameMapLoop (pre ++ (encodePairItems ps ++ rest)) endp ps.length pre.length m =
      (some (pre.length + (encodePairItems ps).length),
        ps.foldl (fun acc p => mapInsert acc p.1 p.2) m) := by
  induction ps with
  | nil =>
    intro pre rest m endp _ _
    simp [encodePairItems_nil, nameMapLoop]
  | cons p t ih =>
    intro pre rest m endp hw hend
    obtain ⟨h1, h2, h3⟩ := wfPair_unpack p (hw p (by simp))
    have hEP : (encodePair p).length =
        (lebEncode p.1).length + (lebEncode p.2.length).length + p.2.length := by
      simp [encodePair]
      omega
    have hIT : (encodePairItems (p :: t)).length =
        (encodePair p).length + (encodePairItems t).length := by
      rw [encodePairItems_cons]
      simp
    rw [hIT] at hend
    have hre : pre ++ (encodePairItems (p :: t) ++ rest) =
        pre ++ (encodePair p ++ (encodePairItems t ++ rest)) := by
      rw [encodePairItems_cons]
      simp
    rw [hre]
    have hparse1 : parseVarint (pre ++ (encodePair p ++ (encodePairItems t ++ rest)))
        endp pre.length 0 = some (p.1, pre.length + (lebEncode p.1).length) := by
      apply parseVarint_encode_at _ _ _ h1 pre
        (lebEncode p.2.length ++ (p.2 ++ (encodePairItems t ++ rest)))
      · simp [encodePair]
      · rfl
      · omega
    have hparse2 : parseVarint (pre ++ (encodePair p ++ (encodePairItems t ++ rest)))
        endp (pre.length + (lebEncode p.1).length) 0 =
        some (p.2.length,
          pre.length + (lebEncode p.1).length + (lebEncode p.2.length).length) := by
      apply parseVarint_encode_at _ _ _ h3 (pre ++ lebEncode p.1)
        (p.2 ++ (encodePairItems t ++ rest))
      · simp [encodePair]
      · simp only [List.length_append]
      · omega
    have hbytes : (((pre ++ (encodePair p ++ (encodePairItems t ++ rest))).drop
        (pre.length + (lebEncode p.1).length + (lebEncode p.2.length).length)).take
        p.2.length).map (· % 256) = p.2 := by
      have ha : pre ++ (encodePair p ++ (encodePairItems t ++ rest)) =
          (pre ++ lebEncode p.1 ++ lebEncode p.2.length) ++
            (p.2 ++ (encodePairItems t ++ rest)) := by
        simp [encodePair]
      have hb : pre.length + (lebEncode p.1).length + (lebEncode p.2.length).length =
          (pre ++ lebEncode p.1 ++ lebEncode p.2.length).length := by
        simp only [List.length_append]
      rw [ha, hb, extract_append, map_mod_of_wf h2]
    have hlc : (p :: t).length = t.length + 1 := rfl
    rw [hlc]
    simp only [nameMapLoop]
    simp only [hparse1]
    simp only [hparse2]
    rw [if_neg (by omega)]
    rw [hbytes]
    have hre2 : pre ++ (encodePair p ++ (encodePairItems t ++ rest)) =
        (pre ++ encodePair p) ++ (encodePairItems t ++ rest) := by
      simp
    have hpos : pre.length + (lebEncode p.1).length + (lebEncode p.2.length).length +
        p.2.length = (pre ++ encodePair p).length := by
      simp only [List.length_append]
      omega
    rw [hpos, hre2, ih (pre ++ encodePair p) rest _ endp
      (fun x hx => hw x (by simp [hx]))
      (by simp only [List.length_append]; omega)]
    rw [List.foldl_cons, Prod.mk.injEq]
    constructor
    · rw [hIT]
      simp only [Option.some.injEq, List.length_append]
      omega
    · rfl

theorem nameSubsections_bad_size (ps : List (Nat × List Nat)) (s : Nat)
    (hw : ∀ p ∈ ps, wfPair p = true) (hps : ps.length < 2 ^ 32 - 1)
    (hs : s < 2 ^ 32 - 1) (hne : s ≠ (encodePairs ps).length) :
    (nameSubsections (1 :: (lebEncode s ++ encodePairs ps))
        (1 :: (lebEncode s ++ encodePairs ps)).length
        ((1 :: (lebEncode s ++ encodePairs ps)).length + 1) 0 []).1 = false := by
  have hEPS : (encodePairs ps).length =
      (lebEncode ps.length).length + (encodePairItems ps).length := by
    rw [encodePairs_eq]
    simp
  have hlbS := lebEncode_len_pos s
  have hlbC := lebEncode_len_pos ps.length
  have hitems := encodePairItems_len_ge ps
  have hlen : (1 :: (lebEncode s ++ encodePairs ps)).length =
      1 + (lebEncode s).length + (encodePairs ps).length := by
    simp only [List.length_cons, List.length_append]
    omega
  have hb0 : byteAt (1 :: (lebEncode s ++ encodePairs ps)) 0 = 1 := by
    simp [byteAt]
  have hparse : parseVarint (1 :: (lebEncode s ++ encodePairs ps))
      (1 :: (lebEncode s ++ encodePairs ps)).length (0 + 1) 0 =
      some (s, 0 + 1 + (lebEncode s).length) := by
    apply parseVarint_encode_at _ _ _ hs [1] (encodePairs ps)
    · simp
    · rfl
    · simp only [List.length_append, List.length_cons]
      omega
  simp only [nameSubsections]
  rw [if_neg (by omega)]
  rw [hb0]
  simp only [hparse]
  by_cases hcase : (encodePairs ps).length < s
  · rw [if_pos (by omega)]
  · rw [if_neg (by omega)]
    rw [if_neg (by omega)]
    have hparse2 : parseVarint (1 :: (lebEncode s ++ encodePairs ps))
        (1 :: (lebEncode s ++ encodePairs ps)).length (0 + 1 + (lebEncode s).length) 0 =
        some (ps.length, 0 + 1 + (lebEncode s).length + (lebEncode ps.length).length) := by
      apply parseVarint_encode_at _ _ _ hps ([1] ++ lebEncode s) (encodePairItems ps)
      · rw [encodePairs_eq]
        simp
      · (try simp only [List.length_append, List.length_cons, List.length_nil]) <;> omega
      · (try simp only [List.length_append, List.length_cons, List.length_nil]) <;> omega
    simp only [hparse2]
    rw [if_neg (by omega)]
    have hloop := nameMapLoop_encode ps ([1] ++ lebEncode s ++ lebEncode ps.length)
      [] [] (1 :: (lebEncode s ++ encodePairs ps)).length hw
      (by
        simp only [List.length_append, List.length_cons, List.length_nil]
        omega)
    have hbodyeq : ([1] ++ lebEncode s ++ lebEncode ps.length) ++
        (encodePairItems ps ++ []) = 1 :: (lebEncode s ++ encodePairs ps) := by
      rw [encodePairs_eq]
      simp
    have hposeq : ([1] ++ lebEncode s ++ lebEncode ps.length : List Nat).length =
        0 + 1 + (lebEncode s).length + (lebEncode ps.length).length := by
      simp only [List.length_append, List.length_cons, List.length_nil]
    rw [hbodyeq, hposeq] at hloop
    simp only [hloop]
    rw [if_pos (by omega)]

/-- Well-formedness of the one-custom-section module carrying a name section
with a corrupted declared subsection size. -/
theorem c9_module_wf (ps : List (Nat × List Nat)) (s : Nat)
    (hw : ∀ p ∈ ps, wfPair p = true)
    (hitems : (encodePairItems ps).length < 2 ^ 32 - 64) :
    wfModule [Section.custom (strBytes "name")
      (1 :: (lebEncode s ++ encodePairs ps))] = true := by
  have hwb : wfBytes (1 :: (lebEncode s ++ encodePairs ps)) = true := by
    rw [show (1 :: (lebEncode s ++ encodePairs ps)) =
      [1] ++ (lebEncode s ++ encodePairs ps) from by simp]
    rw [wfBytes_append, wfBytes_append, lebEncode_wf, wfBytes_encodePairs ps hw]
    rfl
  have hlb1 := lebEncode_len_le s
  have hlb2 := lebEncode_len_le ps.length
  have hlb3 := lebEncode_len_le
    (sectionPayload (.custom (strBytes "name")
      (1 :: (lebEncode s ++ encodePairs ps)))).length
  have hEPS : (encodePairs ps).length =
      (lebEncode ps.length).length + (encodePairItems ps).length := by
    rw [encodePairs_eq]
    simp
  simp only [wfModule, List.all_cons, List.all_nil, Bool.and_true, wfSection,
    Bool.and_eq_true, decide_eq_true_eq]
  refine ⟨⟨by decide, hwb⟩, ?_⟩
  rw [sectionPayload_custom]
  simp only [List.length_append, List.length_cons]
  have hlb4 := lebEncode_len_le (strBytes "name").length
  have : (strBytes "name").length = 4 := by decide
  omega

/-- Claim C9: on a name section holding subsection 1 with the pairs
`(0, "main")` and `(2, "helper")`, `getFunctionNameIndex` succeeds with
exactly the mapping `{0 ↦ "main", 2 ↦ "helper"}`; and whenever the declared
subsection size disagrees with the bytes the pair vector actually occupies,
the operation returns failure. -/
theorem c9_name_section_extraction :
    (getFunctionNameIndex (nameSectionModule c9NameBody) =
      (true, [(0, strBytes "main"), (2, strBytes "helper")])) ∧
    (∀ (ps : List (Nat × List Nat)) (s : Nat),
      (∀ p ∈ ps, wfPair p = true) → ps.length < 2 ^ 32 - 1 →
      (encodePairItems ps).length < 2 ^ 32 - 64 → s < 2 ^ 32 - 1 →
      s ≠ (encodePairs ps).length →
      (getFunctionNameIndex (encodeModule [Section.custom (strBytes "name")
        (1 :: (lebEncode s ++ encodePairs ps))])).1 = false) := by
  constructor
  · decide
  · intro ps s hw hps hitems hs hne
    have hwf := c9_module_wf ps s hw hitems
    have hfound := customSection_found_first [] [] (strBytes "name")
      (1 :: (lebEncode s ++ encodePairs ps)) (by simpa using hwf)
      (by intro x hx; simp at hx)
    have hfound2 : getCustomSection (encodeModule [Section.custom (strBytes "name")
        (1 :: (lebEncode s ++ encodePairs ps))]) (strBytes "name") =
        some (1 :: (lebEncode s ++ encodePairs ps)) := by
      simpa using hfound
    unfold getFunctionNameIndex
    simp only [hfound2]
    rw [if_pos (by simp)]
    exact nameSubsections_bad_size ps s hw hps hs hne

/-- Witness for `c9_name_section_extraction` part 2: one pair `(0, "a")`
whose vector occupies 4 bytes while the subsection declares 5. -/
theorem c9_name_section_extraction_witness :
    ((∀ p ∈ [((0 : Nat), [97])], wfPair p = true) ∧
      ([((0 : Nat), [97])] : List (Nat × List Nat)).length < 2 ^ 32 - 1 ∧
      (encodePairItems [((0 : Nat), [97])]).length < 2 ^ 32 - 64 ∧
      (5 : Nat) < 2 ^ 32 - 1 ∧
      (5 : Nat) ≠ (encodePairs [((0 : Nat), [97])]).length) ∧
    (getFunctionNameIndex (encodeModule [Section.custom (strBytes "name")
      (1 :: (lebEncode 5 ++ encodePairs [((0 : Nat), [97])]))])).1 = false :=
  ⟨⟨by decide, by decide, by decide, by decide, by decide⟩,
    c9_name_section_extraction.2 [((0 : Nat), [97])] 5 (by decide) (by decide)
      (by decide) (by decide) (by decide)⟩


/-! ## Stripped-source lemmas and claims C7, C8 -/

theorem wfBytes_encodeExport (e : ExportEntry) (he : wfExport e = true) :
    wfBytes (encodeExport e) = true := by
  obtain ⟨hn, hk, _, _, _⟩ := wfExport_unpack e he
  unfold encodeExport
  rw [wfBytes_append, wfBytes_append, wfBytes_append, lebEncode_wf, lebEncode_wf, hn]
  simp only [Bool.true_and, Bool.and_true]
  simp [wfBytes]
  omega

theorem wfBytes_sectionPayload (s : Section) (hs : wfSection s = true) :
    wfBytes (sectionPayload s) = true := by
  cases s with
  | custom nm data =>
    obtain ⟨h1, h2, _⟩ := wfSection_custom_unpack nm data hs
    rw [sectionPayload_custom, wfBytes_append, wfBytes_append, lebEncode_wf, h1, h2]
    rfl
  | exports es =>
    have hes := (wfSection_exports_unpack es hs).1
    rw [sectionPayload_exports, wfBytes_append, lebEncode_wf]
    rw [show wfBytes (encodeExports es) = true from wfBytes_flatten _ (by
      intro l hl
      simp only [encodeExports, List.mem_map] at hl
      obtain ⟨e, hem, rfl⟩ := hl
      exact wfBytes_encodeExport e (hes e hem))]
    rfl
  | other ty payload =>
    simp only [wfSection, Bool.and_eq_true, decide_eq_true_eq] at hs
    exact hs.1.2

theorem encodeSection_wf (s : Section) (hs : wfSection s = true) :
    wfBytes (encodeSection s) = true := by
  rw [encodeSection_eq, wfBytes_append, wfBytes_append, lebEncode_wf,
    wfBytes_sectionPayload s hs]
  have ht := sectionTypeByte_lt s hs
  simp [wfBytes]
  omega

theorem encodeSections_wf (secs : List Section) (hw : ∀ s ∈ secs, wfSection s = true) :
    wfBytes (encodeSections secs) = true := by
  apply wfBytes_flatten
  intro l hl
  simp only [List.mem_map] at hl
  obtain ⟨s, hsm, rfl⟩ := hl
  exact encodeSection_wf s (hw s hsm)

theorem encodeModule_wf (secs : List Section) (hwf : wfModule secs = true) :
    wfBytes (encodeModule secs) = true := by
  rw [encodeModule_eq, wfBytes_append, encodeSections_wf secs (wfModule_mem hwf)]
  rw [show wfBytes wasmHeader = true from by decide]
  rfl

theorem strippedSections_noncustom (s : Section) (hs : wfSection s = true)
    (ht : sectionTypeByte s ≠ 0) (pre rest : List Nat) (fuel : Nat) (r : List Nat) :
    strippedSections (pre ++ (encodeSection s ++ rest))
        (pre ++ (encodeSection s ++ rest)).length (fuel + 1) pre.length r =
      strippedSections (pre ++ (encodeSection s ++ rest))
        (pre ++ (encodeSection s ++ rest)).length fuel
        (pre.length + (encodeSection s).length)
        (if r ≠ [] then r ++ encodeSection s else r) := by
  have hlen2 := encodeSection_len_ge s
  have hlb := lebEncode_len_pos (sectionPayload s).length
  have hE := encodeSection_length s
  have hL : (pre ++ (encodeSection s ++ rest)).length =
      pre.length + (encodeSection s).length + rest.length := by
    simp only [List.length_append]
    omega
  have hparse := sectionHeader_parse s hs pre rest
    (pre ++ (encodeSection s ++ rest)).length (by omega)
  have hext : (((pre ++ (encodeSection s ++ rest)).drop pre.length).take
      (pre.length + 1 + (lebEncode (sectionPayload s).length).length +
        (sectionPayload s).length - pre.length)).map (· % 256) = encodeSection s := by
    have hdiff : pre.length + 1 + (lebEncode (sectionPayload s).length).length +
        (sectionPayload s).length - pre.length = (encodeSection s).length := by
      omega
    rw [hdiff, extract_append pre (encodeSection s) rest,
      map_mod_of_wf (encodeSection_wf s hs)]
  simp only [strippedSections]
  rw [if_neg (by omega), if_neg (by omega), sectionType_byteAt s hs]
  simp only [hparse]
  rw [if_neg (by omega), if_neg ht]
  rw [hext]
  congr 1
  omega

theorem strippedSections_custom (nm data : List Nat)
    (hs : wfSection (.custom nm data) = true)
    (pre rest : List Nat) (fuel : Nat) (r : List Nat) :
    strippedSections (pre ++ (encodeSection (.custom nm data) ++ rest))
        (pre ++ (encodeSection (.custom nm data) ++ rest)).length (fuel + 1)
        pre.length r =
      strippedSections (pre ++ (encodeSection (.custom nm data) ++ rest))
        (pre ++ (encodeSection (.custom nm data) ++ rest)).length fuel
        (pre.length + (encodeSection (.custom nm data)).length)
        (if listContainsSub nm (strBytes "precompiled_") then
          (if r = [] then pre.map (· % 256) else r)
        else r) := by
  obtain ⟨hnm, hdt, hpl⟩ := wfSection_custom_unpack nm data hs
  have hlen2 := encodeSection_len_ge (.custom nm data)
  have hlb := lebEncode_len_pos (sectionPayload (.custom nm data)).length
  have hlb2 := lebEncode_len_pos nm.length
  have hE := encodeSection_length (.custom nm data)
  have hPL : (sectionPayload (.custom nm data)).length =
      (lebEncode nm.length).length + nm.length + data.length := by
    rw [sectionPayload_custom]
    simp only [List.length_append]
  have hL : (pre ++ (encodeSection (.custom nm data) ++ rest)).length =
      pre.length + (encodeSection (.custom nm data)).length + rest.length := by
    simp only [List.length_append]
    omega
  have hparse := sectionHeader_parse (.custom nm data) hs pre rest
    (pre ++ (encodeSection (.custom nm data) ++ rest)).length (by omega)
  have hparse2 := customName_parse nm data hs pre rest
    (pre ++ (encodeSection (.custom nm data) ++ rest)).length (by omega)
  have hbytes := customName_bytes nm data hs pre rest
  have htake : (pre ++ (encodeSection (.custom nm data) ++ rest)).take pre.length =
      pre := List.take_left pre _
  simp only [strippedSections]
  rw [if_neg (by omega), if_neg (by omega),
    sectionType_byteAt (.custom nm data) hs]
  simp only [hparse]
  rw [if_neg (by omega)]
  rw [if_pos (show sectionTypeByte (.custom nm data) = 0 from rfl)]
  simp only [hparse2]
  rw [if_neg (by omega)]
  rw [hbytes, htake]
  congr 1
  omega

theorem strippedSections_walk_noprec (secs : List Section) :
    ∀ (pre rest : List Nat) (k : Nat),
    (∀ s ∈ secs, wfSection s = true) →
    (∀ s ∈ secs, hasPrecompiledName s = false) →
    strippedSections (pre ++ (encodeSections secs ++ rest))
        (pre ++ (encodeSections secs ++ rest)).length (secs.length + k)
        pre.length [] =
      strippedSections (pre ++ (encodeSections secs ++ rest))
        (pre ++ (encodeSections secs ++ rest)).length k
        (pre.length + (encodeSections secs).length) [] := by
  induction secs with
  | nil =>
    intro pre rest k _ _
    simp [encodeSections_nil]
  | cons s t ih =>
    intro pre rest k hw hnp
    have hre : pre ++ (encodeSections (s :: t) ++ rest) =
        pre ++ (encodeSection s ++ (encodeSections t ++ rest)) := by
      rw [encodeSections_cons]
      simp
    have hre2 : pre ++ (encodeSection s ++ (encodeSections t ++ rest)) =
        (pre ++ encodeSection s) ++ (encodeSections t ++ rest) := by
      simp
    have hlen : (s :: t).length + k = (t.length + k) + 1 := by
      simp
      omega
    have hstep : strippedSections (pre ++ (encodeSection s ++ (encodeSections t ++ rest)))
        (pre ++ (encodeSection s ++ (encodeSections t ++ rest))).length
        ((t.length + k) + 1) pre.length [] =
        strippedSections (pre ++ (encodeSection s ++ (encodeSections t ++ rest)))
          (pre ++ (encodeSection s ++ (encodeSections t ++ rest))).length
          (t.length + k) (pre.length + (encodeSection s).length) [] := by
      cases s with
      | custom nm data =>
        rw [strippedSections_custom nm data (hw _ (by simp)) pre
          (encodeSections t ++ rest) (t.length + k) []]
        have hpf : listContainsSub nm (strBytes "precompiled_") = false := by
          simpa [hasPrecompiledName] using hnp _ (List.mem_cons_self _ _)
        rw [hpf]
        simp
      | exports es =>
        rw [strippedSections_noncustom _ (hw _ (by simp))
          (by simp [sectionTypeByte]) pre (encodeSections t ++ rest) (t.length + k) []]
        simp
      | other ty payload =>
        have hs := hw _ (List.mem_cons_self _ _)
        rw [strippedSections_noncustom _ hs
          (by
            simp only [wfSection, Bool.and_eq_true, decide_eq_true_eq] at hs
            simpa [sectionTypeByte] using hs.1.1.1.2)
          pre (encodeSections t ++ rest) (t.length + k) []]
        simp
    rw [hre, hlen, hstep]
    have hpos : pre.length + (encodeSection s).length = (pre ++ encodeSection s).length := by
      simp
    rw [hpos, hre2, ih (pre ++ encodeSection s) rest k
      (fun x hx => hw x (by simp [hx])) (fun x hx => hnp x (by simp [hx]))]
    rw [← hre2, ← hre]
    congr 1
    rw [encodeSections_cons]
    simp
    omega

/-- Claim C8: on a structurally valid module none of whose custom sections has
a name containing `"precompiled_"`, `getStrippedSource` returns a byte-identical
copy of the whole input, and therefore applying it again to its own output is
the same no-op copy (idempotence). -/
theorem c8_strip_no_precompiled_noop (secs : List Section)
    (hwf : wfModule secs = true)
    (hnp : ∀ s ∈ secs, hasPrecompiledName s = false) :
    getStrippedSource (encodeModule secs) = (true, encodeModule secs) ∧
    getStrippedSource ((getStrippedSource (encodeModule secs)).2) =
      (true, (getStrippedSource (encodeModule secs)).2) := by
  have hwall := wfModule_mem hwf
  have h1 : getStrippedSource (encodeModule secs) = (true, encodeModule secs) := by
    have hck := checkWasmHeader_encodeModule secs
    unfold getStrippedSource
    rw [hck]
    norm_num
    have hbuf : encodeModule secs = wasmHeader ++ (encodeSections secs ++ []) := by
      rw [encodeModule_eq]
      simp
    rw [hbuf]
    have hskge := encodeSections_len_ge secs
    have hLL : (wasmHeader ++ (encodeSections secs ++ [])).length =
        8 + (encodeSections secs).length := by
      simp only [List.length_append, List.length_nil,
        show (wasmHeader : List Nat).length = 8 from rfl]
      omega
    have hfuel : (wasmHeader ++ (encodeSections secs ++ [])).length + 1 =
        secs.length +
          ((wasmHeader ++ (encodeSections secs ++ [])).length + 1 - secs.length) := by
      omega
    have hlen8 : (8 : Nat) = (wasmHeader : List Nat).length := rfl
    rw [hfuel, hlen8, strippedSections_walk_noprec secs wasmHeader [] _ hwall hnp]
    have hk : (wasmHeader ++ (encodeSections secs ++ [])).length + 1 - secs.length =
        ((wasmHeader ++ (encodeSections secs ++ [])).length - secs.length) + 1 := by
      omega
    rw [hk]
    simp only [strippedSections]
    rw [if_pos (by simp only [List.length_append, List.length_nil]; omega)]
    rw [← hbuf, map_mod_of_wf (encodeModule_wf secs hwf)]
    simp
  refine ⟨h1, ?_⟩
  rw [h1]
  exact h1

/-- Witness for `c8_strip_no_precompiled_noop` on a one-section module. -/
theorem c8_strip_no_precompiled_noop_witness :
    (wfModule [Section.other 1 [96]] = true ∧
      (∀ s ∈ [Section.other 1 [96]], hasPrecompiledName s = false)) ∧
    getStrippedSource (encodeModule [Section.other 1 [96]]) =
      (true, encodeModule [Section.other 1 [96]]) :=
  ⟨⟨by decide, by decide⟩,
    (c8_strip_no_precompiled_noop [Section.other 1 [96]] (by decide) (by decide)).1⟩

set_option maxHeartbeats 1000000 in
/-- Claim C7: stripping a module `[type section, custom("precompiled_cranelift"),
code section]` keeps the header and the type section verbatim, removes the
precompiled custom section, and appends the code section verbatim. -/
theorem c7_strip_precompiled_section (tp cp dataC : List Nat)
    (h1 : wfSection (.other 1 tp) = true)
    (hc : wfSection (.custom (strBytes "precompiled_cranelift") dataC) = true)
    (h10 : wfSection (.other 10 cp) = true) :
    getStrippedSource (encodeModule [Section.other 1 tp,
        Section.custom (strBytes "precompiled_cranelift") dataC,
        Section.other 10 cp]) =
      (true, wasmHeader ++ encodeSection (Section.other 1 tp) ++
        encodeSection (Section.other 10 cp)) := by
  have hck := checkWasmHeader_encodeModule [Section.other 1 tp,
    Section.custom (strBytes "precompiled_cranelift") dataC, Section.other 10 cp]
  unfold getStrippedSource
  rw [hck]
  norm_num
  have hbuf : encodeModule [Section.other 1 tp,
      Section.custom (strBytes "precompiled_cranelift") dataC,
      Section.other 10 cp] =
      wasmHeader ++ (encodeSection (Section.other 1 tp) ++
        (encodeSection (Section.custom (strBytes "precompiled_cranelift") dataC) ++
          (encodeSection (Section.other 10 cp) ++ []))) := by
    rw [encodeModule_eq]
    simp [encodeSections]
  rw [hbuf]
  have hg2 := encodeSection_len_ge (Section.other 1 tp)
  have hg3 := encodeSection_len_ge
    (Section.custom (strBytes "precompiled_cranelift") dataC)
  have hg4 := encodeSection_len_ge (Section.other 10 cp)
  have hLL : (wasmHeader ++ (encodeSection (Section.other 1 tp) ++
      (encodeSection (Section.custom (strBytes "precompiled_cranelift") dataC) ++
        (encodeSection (Section.other 10 cp) ++ [])))).length =
      8 + (encodeSection (Section.other 1 tp)).length +
        (encodeSection (Section.custom (strBytes "precompiled_cranelift") dataC)).length +
        (encodeSection (Section.other 10 cp)).length := by
    simp only [List.length_append, List.length_nil,
      show (wasmHeader : List Nat).length = 8 from rfl]
    omega
  have hfuel : (wasmHeader ++ (encodeSection (Section.other 1 tp) ++
      (encodeSection (Section.custom (strBytes "precompiled_cranelift") dataC) ++
        (encodeSection (Section.other 10 cp) ++ [])))).length + 1 =
      ((wasmHeader ++ (encodeSection (Section.other 1 tp) ++
        (encodeSection (Section.custom (strBytes "precompiled_cranelift") dataC) ++
          (encodeSection (Section.other 10 cp) ++ [])))).length - 2) + 1 + 1 + 1 := by
    omega
  have hlen8 : (8 : Nat) = (wasmHeader : List Nat).length := rfl
  rw [hfuel, hlen8]
  -- step 1: the type section, with ret still empty
  rw [strippedSections_noncustom (Section.other 1 tp) h1
    (by
      simp only [wfSection, Bool.and_eq_true, decide_eq_true_eq] at h1
      simpa [sectionTypeByte] using h1.1.1.1.2)
    wasmHeader _ _ []]
  rw [show (if ([] : List Nat) ≠ [] then
      [] ++ encodeSection (Section.other 1 tp) else []) = [] from by simp]
  -- step 2: the precompiled custom section captures header ++ type section
  have hre2 : wasmHeader ++ (encodeSection (Section.other 1 tp) ++
      (encodeSection (Section.custom (strBytes "precompiled_cranelift") dataC) ++
        (encodeSection (Section.other 10 cp) ++ []))) =
      (wasmHeader ++ encodeSection (Section.other 1 tp)) ++
        (encodeSection (Section.custom (strBytes "precompiled_cranelift") dataC) ++
          (encodeSection (Section.other 10 cp) ++ [])) := by
    simp
  have hpos2 : (wasmHeader : List Nat).length +
      (encodeSection (Section.other 1 tp)).length =
      (wasmHeader ++ encodeSection (Section.other 1 tp)).length := by
    simp
  rw [hpos2, hre2]
  rw [strippedSections_custom (strBytes "precompiled_cranelift") dataC hc
    (wasmHeader ++ encodeSection (Section.other 1 tp)) _ _ []]
  rw [show listContainsSub (strBytes "precompiled_cranelift")
      (strBytes "precompiled_") = true from by decide]
  rw [if_pos rfl, if_pos rfl]
  rw [map_mod_of_wf (by
    rw [wfBytes_append, encodeSection_wf _ h1]
    rw [show wfBytes wasmHeader = true from by decide]
    rfl)]
  -- step 3: the code section is appended to the non-empty ret
  have hre3 : (wasmHeader ++ encodeSection (Section.other 1 tp)) ++
      (encodeSection (Section.custom (strBytes "precompiled_cranelift") dataC) ++
        (encodeSection (Section.other 10 cp) ++ [])) =
      ((wasmHeader ++ encodeSection (Section.other 1 tp)) ++
        encodeSection (Section.custom (strBytes "precompiled_cranelift") dataC)) ++
        (encodeSection (Section.other 10 cp) ++ []) := by
    simp
  have hpos3 : (wasmHeader ++ encodeSection (Section.other 1 tp)).length +
      (encodeSection (Section.custom (strBytes "precompiled_cranelift") dataC)).length =
      ((wasmHeader ++ encodeSection (Section.other 1 tp)) ++
        encodeSection (Section.custom (strBytes "precompiled_cranelift") dataC)).length := by
    simp only [List.length_append]
  rw [hpos3, hre3]
  rw [strippedSections_noncustom (Section.other 10 cp) h10
    (by
      simp only [wfSection, Bool.and_eq_true, decide_eq_true_eq] at h10
      simpa [sectionTypeByte] using h10.1.1.1.2)
    ((wasmHeader ++ encodeSection (Section.other 1 tp)) ++
      encodeSection (Section.custom (strBytes "precompiled_cranelift") dataC))
    [] _ (wasmHeader ++ encodeSection (Section.other 1 tp))]
  rw [show (if (wasmHeader ++ encodeSection (Section.other 1 tp) : List Nat) ≠ [] then
      (wasmHeader ++ encodeSection (Section.other 1 tp)) ++
        encodeSection (Section.other 10 cp)
    else wasmHeader ++ encodeSection (Section.other 1 tp)) =
      (wasmHeader ++ encodeSection (Section.other 1 tp)) ++
        encodeSection (Section.other 10 cp) from by simp [wasmHeader]]
  -- the walk ends: the cursor sits at the end of the buffer
  simp only [strippedSections]
  rw [if_pos (by
    simp only [List.length_append, List.length_cons, List.length_nil]
    omega)]
  simp [wasmHeader]

/-- Witness for `c7_strip_precompiled_section` with tiny concrete sections. -/
theorem c7_strip_precompiled_section_witness :
    (wfSection (Section.other 1 [96]) = true ∧
      wfSection (Section.custom (strBytes "precompiled_cranelift") [9, 9]) = true ∧
      wfSection (Section.other 10 [2]) = true) ∧
    getStrippedSource (encodeModule [Section.other 1 [96],
        Section.custom (strBytes "precompiled_cranelift") [9, 9],
        Section.other 10 [2]]) =
      (true, wasmHeader ++ encodeSection (Section.other 1 [96]) ++
        encodeSection (Section.other 10 [2])) :=
  ⟨⟨by decide, by decide, by decide⟩,
    c7_strip_precompiled_section [96] [2] [9, 9] (by decide) (by decide) (by decide)⟩

end BytecodeUtil
